import Mathlib

/-!
Verification development for the rustwide library.

Each Rust function relevant to the verified claims is translated into an
executable Lean definition ("shallow embedding"); external effects
(filesystem, subprocesses, container runtime, timers) are passed in as
explicit oracle inputs.  Theorems at the end of the file settle the claims.
-/

deriving instance DecidableEq for Except

namespace Rustwide

/-! ## Shared data model: `src/cmd/mod.rs` error taxonomy

`ExitStatus` is modelled by its numeric code (`0` = success).  `KillFailedError`
is modelled by the killed process id (the optional errno is not relevant to any
claim and is dropped: the error is identified by its variant and pid). -/

/-- Model of `CommandError` from `src/cmd/mod.rs`. Variants that no claim
exercises (image pulling, docker-inspect parsing, plain IO) are merged into
`ioError`. -/
inductive CommandError where
  | noOutputFor (secs : Nat)
  | timeout (secs : Nat)
  | executionFailed (status : Nat) (stderr : String)
  | killAfterTimeoutFailed (pid : Nat)
  | sandboxOOM
  | ioError
  deriving DecidableEq

/-- Model of `ProcessOutput`: the captured stdout and stderr lines. -/
structure ProcessOutput where
  stdout : List String
  stderr : List String
  deriving DecidableEq

/-! ## `src/cmd/process_lines_actions.rs` -/

/-- Model of `InnerState`. -/
inductive InnerState where
  | removed
  | original
  | replaced (lines : List String)
  deriving DecidableEq

/-- `InnerState::default()` is `Original`. -/
def InnerState.default : InnerState := .original

/-- Model of `ProcessLinesActions::take_lines`: `std::mem::take(&mut self.state)`
returns the current state and resets it to `Original`. -/
def takeLines (st : InnerState) : InnerState × InnerState :=
  (st, .original)

/-- The lines emitted for one input line given the state taken from the
actions object — the `match actions.take_lines()` in `log_command`
(`src/cmd/mod.rs:634-638`). -/
def linesFor (line : String) (taken : InnerState) : List String :=
  match taken with
  | .removed => []
  | .original => [line]
  | .replaced ls => ls

/-- One iteration of the per-line processing in `log_command`
(`src/cmd/mod.rs:630-638`): call the user callback (modelled by its effect
`cb` on the actions state), then take the lines.  Returns the emitted lines
and the actions state left for the next line. -/
def emitStep (cb : String → InnerState → InnerState) (line : String)
    (st : InnerState) : List String × InnerState :=
  let st' := cb line st
  let t := takeLines st'
  (linesFor line t.1, t.2)

/-- The stateful per-line loop of `log_command`, threading the single
`ProcessLinesActions` value through all lines, returning the emitted lines
for each input line. -/
def processLines (cb : String → InnerState → InnerState) :
    InnerState → List String → List (List String)
  | _, [] => []
  | st, l :: rest =>
    let s := emitStep cb l st
    s.1 :: processLines cb s.2 rest

/-! ## `src/cmd/sandbox.rs`: `Container::run` result combination -/

/-- The post-execution result combination in `Container::run`
(`src/cmd/sandbox.rs:440-451`): the container is inspected; if the inspect
fails that error propagates; if `State.OOMKilled` is set, an `Ok` result or an
`ExecutionFailed` error is replaced by `SandboxOOM` while any other error is
kept; otherwise the command's own result is returned. -/
def containerRunCombine (res : Except CommandError ProcessOutput)
    (inspectRes : Except CommandError Bool) : Except CommandError ProcessOutput :=
  match inspectRes with
  | .error e => .error e
  | .ok oomKilled =>
    if oomKilled then
      .error (match res with
        | .ok _ => CommandError.sandboxOOM
        | .error (.executionFailed _ _) => CommandError.sandboxOOM
        | .error e => e)
    else res

/-! ## `src/toolchain.rs` -/

/-- Model of `Toolchain` (`ToolchainInner`): a dist toolchain named for rustup,
or a CI toolchain given by a commit sha and the alt flag. -/
inductive Toolchain where
  | dist (name : String)
  | ci (sha : String) (alt : Bool)
  deriving DecidableEq

/-- `Toolchain::rustup_name`. -/
def rustupName : Toolchain → String
  | .dist n => n
  | .ci sha true => sha ++ "-alt"
  | .ci sha false => sha

/-- Model of `RustupAction`. -/
inductive RustupAction where
  | add
  | remove
  deriving DecidableEq

/-- Model of `RustupThing`. -/
inductive RustupThing where
  | target
  | component
  deriving DecidableEq

/-- `Display for RustupAction`. -/
def actionStr : RustupAction → String
  | .add => "add"
  | .remove => "remove"

/-- The gerund used in log/error messages by `change_rustup_thing`. -/
def actionIngStr : RustupAction → String
  | .add => "adding"
  | .remove => "removing"

/-- `Display for RustupThing`. -/
def thingStr : RustupThing → String
  | .target => "target"
  | .component => "component"

/-- Model of `ToolchainError`. -/
inductive ToolchainError where
  | notInstalled
  | unsupportedOperation
  deriving DecidableEq

/-- The errors that toolchain operations can surface: a `ToolchainError`, a
generic `failure::bail!`-style message, or a wrapped command error. -/
inductive ToolchainOpError where
  | toolchain (e : ToolchainError)
  | genericMessage (msg : String)
  | command (e : CommandError)
  deriving DecidableEq

/-- Model of `Toolchain::change_rustup_thing` (`src/toolchain.rs:306-352`).
For a CI toolchain the function bails out with a generic error message before
any command is built; for a dist toolchain it runs rustup with the argument
vector returned here (the subsequent command execution is abstracted away: the
observable settled by the claims is which error or which invocation is
produced). -/
def changeRustupThing (tc : Toolchain) (action : RustupAction)
    (thing : RustupThing) (name : String) : Except ToolchainOpError (List String) :=
  match tc with
  | .ci _ _ =>
    .error (.genericMessage
      (actionIngStr action ++ " " ++ thingStr thing ++
        " on CI toolchains is not supported yet"))
  | .dist _ =>
    .ok [thingStr thing, actionStr action, "--toolchain", rustupName tc, name]

/-- Model of `Toolchain::list_rustup_things` (`src/toolchain.rs:354-364`): for
a non-dist toolchain it returns `ToolchainError::UnsupportedOperation`; for a
dist toolchain it runs rustup with the argument vector returned here. -/
def listRustupThings (tc : Toolchain) (thing : RustupThing) :
    Except ToolchainOpError (List String) :=
  match tc with
  | .ci _ _ => .error (.toolchain .unsupportedOperation)
  | .dist n => .ok [thingStr thing, "list", "--installed", "--toolchain", n]

/-! ## `src/prepare.rs`: lockfile generation and dependency fetching (C2) -/

/-- Failures of the lockfile/fetch steps (the classification of C4 is modelled
separately; here only which step failed matters). -/
inductive PrepStepError where
  | generateFailed
  | fetchFailed
  deriving DecidableEq

/-- Environment for the lockfile/fetch portion of `Prepare::prepare`:
whether `Cargo.lock` already exists in the source directory, whether
`cargo generate-lockfile` would succeed, and the outcome of the n-th
`cargo fetch` invocation (numbered from 1). -/
structure PrepEnv where
  lockfileExists : Bool
  generateOk : Bool
  fetch : Nat → Bool

/-- Model of the `capture_lockfile` + `fetch_deps` steps of `Prepare::prepare`
(`src/prepare.rs:36-45`, `95-121`, `123-143`): `capture_lockfile` skips
generation when a lockfile exists, otherwise runs `cargo generate-lockfile`;
then `fetch_deps` runs `cargo fetch --manifest-path Cargo.toml` once.  The
second component counts how many `cargo fetch` invocations were made. -/
def prepareLockAndFetch (env : PrepEnv) : Except PrepStepError Unit × Nat :=
  if env.lockfileExists then
    if env.fetch 1 then (.ok (), 1) else (.error .fetchFailed, 1)
  else if env.generateOk then
    if env.fetch 1 then (.ok (), 1) else (.error .fetchFailed, 1)
  else (.error .generateFailed, 0)

/-! ## `src/build.rs`: `BuildDirectory::run` (C8) -/

/-- The on-disk state of one build directory: whether `source/` and `target/`
exist. -/
structure BuildDirState where
  source : Bool
  target : Bool
  deriving DecidableEq

/-- Outcome of `Prepare::prepare` as seen by `BuildDirectory::run`: success
(after which `source/` has been populated), or failure leaving `source/` in
the state recorded by `sourceLeft` (the first prepare step copies the source
tree; later steps may fail with the tree present, an early copy failure may
leave it absent). -/
inductive PrepOutcome where
  | ok
  | fail (sourceLeft : Bool)
  deriving DecidableEq

/-- Result of one `BuildDirectory::run` call. -/
inductive RunOutcome where
  | success
  | prepareFailed
  | closureFailed
  deriving DecidableEq

/-- Model of `BuildDirectory::run` (`src/build.rs:184-209`): remove `source/`
if it exists, run the preparation (which populates `source/`), create
`target/`, run the user closure, and remove `source/` only when the closure
succeeded.  `target/` is never removed. -/
def buildDirRun (s : BuildDirState) (prep : PrepOutcome) (closureOk : Bool) :
    RunOutcome × BuildDirState :=
  let s1 : BuildDirState := { s with source := false }
  match prep with
  | .fail left => (.prepareFailed, { s1 with source := left })
  | .ok =>
    let s2 : BuildDirState := { s1 with source := true }
    let s3 : BuildDirState := { s2 with target := true }
    if closureOk then (.success, { s3 with source := false })
    else (.closureFailed, s3)

/-! ## `src/prepare.rs`: failure classification by output scanning (C4) -/

/-- Whether the pattern occurs at the head of the character list. -/
def patAtHead : List Char → List Char → Bool
  | [], _ => true
  | _ :: _, [] => false
  | p :: ps, h :: hs => p == h && patAtHead ps hs

/-- Whether the pattern occurs anywhere in the character list. -/
def hasSub : List Char → List Char → Bool
  | [], pat => pat.isEmpty
  | h :: hs, pat => patAtHead pat (h :: hs) || hasSub hs pat

/-- Substring containment, modelling Rust's `str::contains`. -/
def containsSub (hay pat : String) : Bool :=
  hasSub hay.data pat.data

/-- Model of `PrepareError` (`src/prepare.rs:376-406`); variants not reachable
from `run_command` are omitted, and an unclassified command error is carried
verbatim in `command`. -/
inductive PrepareError where
  | yankedDependencies (stderr : String)
  | missingDependencies (stderr : String)
  | brokenDependencies (stderr : String)
  | invalidCargoLock (stderr : String)
  | command (e : CommandError)
  deriving DecidableEq

/-- The four classification flags of `run_command` (`src/prepare.rs:146-149`). -/
structure DepFlags where
  yankedDeps : Bool
  missingDeps : Bool
  brokenDeps : Bool
  brokenLockfile : Bool
  deriving DecidableEq

def sYanked : String := "failed to select a version for the requirement"
def sMissingA : String := "failed to load source for dependency"
def sMissingB : String := "no matching package named"
def sBrokenA : String := "failed to parse manifest at"
def sBrokenB : String := "error: invalid table header"
def sLockfile : String := "error: failed to parse lock file at"

/-- The line callback of `run_command` (`src/prepare.rs:151-165`): an
`else if` chain, so each line sets at most one flag. -/
def updateFlags (f : DepFlags) (line : String) : DepFlags :=
  if containsSub line sYanked then { f with yankedDeps := true }
  else if containsSub line sMissingA || containsSub line sMissingB then
    { f with missingDeps := true }
  else if containsSub line sBrokenA || containsSub line sBrokenB then
    { f with brokenDeps := true }
  else if containsSub line sLockfile then { f with brokenLockfile := true }
  else f

/-- The flags after all output lines have been seen by the callback. -/
def scanFlags (lines : List String) : DepFlags :=
  lines.foldl updateFlags ⟨false, false, false, false⟩

/-- The result match of `run_command` (`src/prepare.rs:167-182`): an
`ExecutionFailed` error is mapped through the flags in the order
yanked → missing → broken-deps → broken-lockfile; anything else is returned
verbatim. -/
def classifyResult (res : Except CommandError ProcessOutput) (f : DepFlags) :
    Except PrepareError ProcessOutput :=
  match res with
  | .ok out => .ok out
  | .error (.executionFailed st stderr) =>
    if f.yankedDeps then .error (.yankedDependencies stderr)
    else if f.missingDeps then .error (.missingDependencies stderr)
    else if f.brokenDeps then .error (.brokenDependencies stderr)
    else if f.brokenLockfile then .error (.invalidCargoLock stderr)
    else .error (.command (.executionFailed st stderr))
  | .error e => .error (.command e)

/-- `run_command` as a whole: scan the output lines seen by the callback,
then classify the command result. -/
def runCommandModel (lines : List String)
    (res : Except CommandError ProcessOutput) : Except PrepareError ProcessOutput :=
  classifyResult res (scanFlags lines)

/-- The classification described by the specification, with the flags defined
directly by "some output line contains the substring" (no per-line `else if`
chain) and examined in the same order. -/
def specClassify (lines : List String)
    (res : Except CommandError ProcessOutput) : Except PrepareError ProcessOutput :=
  match res with
  | .ok out => .ok out
  | .error (.executionFailed st stderr) =>
    if lines.any (fun l => containsSub l sYanked) then
      .error (.yankedDependencies stderr)
    else if lines.any (fun l => containsSub l sMissingA || containsSub l sMissingB) then
      .error (.missingDependencies stderr)
    else if lines.any (fun l => containsSub l sBrokenA || containsSub l sBrokenB) then
      .error (.brokenDependencies stderr)
    else if lines.any (fun l => containsSub l sLockfile) then
      .error (.invalidCargoLock stderr)
    else .error (.command (.executionFailed st stderr))
  | .error e => .error (.command e)

/-! ## `src/utils.rs`: `escape_path` (C9) -/

/-- The C0 control bytes plus DEL — `percent_encoding::CONTROLS`. -/
def isControl (b : Nat) : Bool :=
  b < 0x20 || b == 0x7f

/-- The `ENCODE_SET` of `src/utils.rs:8-18`: controls plus
`/ \ < > : " | ? *` and space. -/
def inEncodeSet (b : Nat) : Bool :=
  isControl b || b == 47 || b == 92 || b == 60 || b == 62 || b == 58 ||
    b == 34 || b == 124 || b == 63 || b == 42 || b == 32

/-- Whether `percent_encode` escapes the byte: non-ASCII bytes are always
escaped, ASCII bytes iff they are in the set. -/
def shouldEncode (b : Nat) : Bool :=
  b > 0x7f || inEncodeSet b

/-- Upper-case hexadecimal digit characters, as emitted by `percent_encode`. -/
def hexDigit (n : Nat) : Char :=
  (['0', '1', '2', '3', '4', '5', '6', '7', '8', '9',
    'A', 'B', 'C', 'D', 'E', 'F']).getD n '0'

/-- The characters emitted for one input byte. -/
def escapeByte (b : Nat) : List Char :=
  if shouldEncode b then ['%', hexDigit (b / 16), hexDigit (b % 16)]
  else [Char.ofNat b]

/-- The characters emitted for a byte string. -/
def escapeChars : List Nat → List Char
  | [] => []
  | b :: rest => escapeByte b ++ escapeChars rest

/-- Model of `escape_path` (`src/utils.rs:20-22`): percent-encode the byte
string with the `ENCODE_SET` and collect the result into a string. -/
def escapePath (bs : List Nat) : String :=
  String.mk (escapeChars bs)

/-! ## `src/cmd/mod.rs`: `log_command` and `run_inner` (C1, C3)

`log_command` runs the child with two concurrent timers.  The model's input is
the child's intended behaviour: the lines it would produce (with their arrival
times in seconds since spawn), its intended exit time and status, plus an
oracle telling whether `native::kill_process` succeeds.  Timers are assumed to
fire exactly at their deadlines.  The two joined futures are evaluated as in
the source: the output stream's error takes precedence (`output?` before
`child?`, `src/cmd/mod.rs:680-685`). -/

/-- Which stream a line belongs to. -/
inductive OutputKind where
  | stdout
  | stderr
  deriving DecidableEq

/-- One line produced by the child: its arrival time (seconds since spawn),
stream, and text. -/
structure Ev where
  t : Nat
  kind : OutputKind
  line : String

/-- The inputs of one `log_command` + `run_inner` call: wall-clock timeout `T`
and idle timeout `I` (both already defaulted as in `src/cmd/mod.rs:583-595`),
the child pid, the child's intended output and exit, the kill oracle, the
capture flag, and the line-transformer's effect on the actions state. -/
structure RunSpec where
  timeoutT : Nat
  idleI : Nat
  pid : Nat
  events : List Ev
  exitTime : Nat
  exitStatus : Nat
  killOk : Bool
  capture : Bool
  cb : String → InnerState → InnerState

/-- When the merged stdout/stderr stream ends: at the wall-clock deadline if
the child is successfully killed there, otherwise at the child's intended
exit. -/
def streamEnd (spec : RunSpec) : Nat :=
  if spec.exitTime > spec.timeoutT ∧ spec.killOk = true then spec.timeoutT
  else spec.exitTime

/-- `try_fold`'s accumulation (`src/cmd/mod.rs:648-662`): emitted lines are
appended to the per-stream buffer only when capture was requested. -/
def appendIf (capture : Bool) (acc : List String × List String)
    (kind : OutputKind) (ls : List String) : List String × List String :=
  if capture then
    match kind with
    | .stdout => (acc.1 ++ ls, acc.2)
    | .stderr => (acc.1, acc.2 ++ ls)
  else acc

/-- The idle-timeout branch of the stream (`src/cmd/mod.rs:610-615`): the
child is killed; on success the error is `NoOutputFor(I)`, otherwise
`KillAfterTimeoutFailed`. -/
def idleError (spec : RunSpec) : CommandError :=
  if spec.killOk then .noOutputFor spec.idleI
  else .killAfterTimeoutFailed spec.pid

/-- The output future of `log_command` (`src/cmd/mod.rs:608-662`): the merged
line stream with a per-item idle timeout, the in-line wall-clock check, the
line transformer, and the capture fold.  `prev` is the arrival time of the
previous item (0 at the start), `st` the actions state, `acc` the capture
buffers. -/
def outLoop (spec : RunSpec) :
    Nat → InnerState → List String × List String → List Ev →
    Except CommandError (List String × List String)
  | prev, _, acc, [] =>
    if streamEnd spec > prev + spec.idleI then .error (idleError spec)
    else .ok acc
  | prev, st, acc, e :: rest =>
    if spec.exitTime > spec.timeoutT ∧ spec.killOk = true ∧ e.t > spec.timeoutT then
      -- the child was killed at the wall-clock deadline, so this line is
      -- never produced and the stream ends at `timeoutT`
      if spec.timeoutT > prev + spec.idleI then .error (idleError spec)
      else .ok acc
    else if e.t > prev + spec.idleI then .error (idleError spec)
    else if e.t > spec.timeoutT then .error (.timeout spec.timeoutT)
    else
      let s := emitStep spec.cb e.line st
      outLoop spec e.t s.2 (appendIf spec.capture acc e.kind s.1) rest

/-- The child future of `log_command` (`src/cmd/mod.rs:664-678`):
`time::timeout(T, child.wait())`; if the deadline elapses the child is killed,
yielding `Timeout(T)` on success and `KillAfterTimeoutFailed` on failure. -/
def childResult (spec : RunSpec) : Except CommandError Nat :=
  if spec.exitTime > spec.timeoutT then
    .error (if spec.killOk then .timeout spec.timeoutT
            else .killAfterTimeoutFailed spec.pid)
  else .ok spec.exitStatus

/-- `log_command` (`src/cmd/mod.rs:575-692`): join the two futures; the output
error is propagated first, then the child error, otherwise the exit status and
the capture buffers are returned. -/
def logCommandModel (spec : RunSpec) :
    Except CommandError (Nat × List String × List String) :=
  match outLoop spec 0 .original ([], []) spec.events with
  | .error e => .error e
  | .ok acc =>
    match childResult spec with
    | .error e => .error e
    | .ok status => .ok (status, acc.1, acc.2)

/-- `stderr.join("\n")` (`src/cmd/mod.rs:519`). -/
def joinLines (ls : List String) : String :=
  String.intercalate "\n" ls

/-- The unsandboxed tail of `Command::run_inner` (`src/cmd/mod.rs:514-521`):
a zero exit status returns the captured output, otherwise
`ExecutionFailed { status, stderr }` with the newline-joined stderr buffer. -/
def runInnerModel (spec : RunSpec) : Except CommandError (List String × List String) :=
  match logCommandModel spec with
  | .error e => .error e
  | .ok (status, so, se) =>
    if status = 0 then .ok (so, se)
    else .error (.executionFailed status (joinLines se))

/-- Whether this call attempted to kill the child after a timeout: either the
output stream hit the idle timeout (its error is then `NoOutputFor` or
`KillAfterTimeoutFailed`), or the wall-clock deadline elapsed before the
child's intended exit. -/
def killAttempted (spec : RunSpec) : Bool :=
  (match outLoop spec 0 .original ([], []) spec.events with
   | .error (.noOutputFor _) => true
   | .error (.killAfterTimeoutFailed _) => true
   | _ => false) ||
  (spec.exitTime > spec.timeoutT)

/-- A segment of the event list is within both limits: each arrival is within
the idle timeout of the previous one and within the wall-clock timeout. -/
def goodSeg (spec : RunSpec) : Nat → List Ev → Bool
  | _, [] => true
  | prev, e :: rest =>
    e.t ≤ prev + spec.idleI && e.t ≤ spec.timeoutT && goodSeg spec e.t rest

/-- The arrival time of the last event of a segment (`prev` if empty). -/
def lastT : Nat → List Ev → Nat
  | prev, [] => prev
  | _, e :: rest => lastT e.t rest

/-- The transformed lines of one stream, as the specification describes them:
each line of that stream is passed to the transformer (whose actions state is
`Original` at every call) and the resulting lines are concatenated. -/
def transformedLines (cb : String → InnerState → InnerState)
    (evs : List Ev) (kind : OutputKind) : List String :=
  ((evs.filter (fun e => e.kind == kind)).map
    (fun e => (emitStep cb e.line .original).1)).flatten

/-! ## `src/prepare.rs`: `TomlTweaker` (C7)

A TOML tree is modelled by `TomlValue`; a `toml::value::Table` is a key-value
list with unique keys.  Replacing the binding of an existing key keeps its
position and a fresh key is appended (the real `BTreeMap` iterates in key
order; the specification itself treats outputs as equal "modulo TOML key
order", and no claim observes the order of freshly inserted keys).  A float is
carried as its bit pattern; the tweaker never inspects it. -/

/-- Model of `toml::Value`. -/
inductive TomlValue where
  | str (s : String)
  | int (n : Int)
  | float (bits : Nat)
  | boolean (b : Bool)
  | datetime (s : String)
  | array (xs : List TomlValue)
  | table (kvs : List (String × TomlValue))

/-- A `toml::value::Table`. -/
abbrev TomlTable := List (String × TomlValue)

/-- `Table::get`: the value bound to a key (first binding). -/
def tget : TomlTable → String → Option TomlValue
  | [], _ => none
  | (k', v') :: rest, k => if k = k' then some v' else tget rest k

/-- `Table::insert`: replace the first binding of the key in place, or append
a fresh binding. -/
def tinsert : TomlTable → String → TomlValue → TomlTable
  | [], k, v => [(k, v)]
  | (k', v') :: rest, k, v =>
    if k = k' then (k, v) :: rest else (k', v') :: tinsert rest k v

/-- `Table::remove`: drop the first binding of the key. -/
def tremove : TomlTable → String → TomlTable
  | [], _ => []
  | (k', v') :: rest, k =>
    if k = k' then rest else (k', v') :: tremove rest k

/-- `Value::get` on a table value (`None` on non-tables). -/
def vget : TomlValue → String → Option TomlValue
  | .table kvs, k => tget kvs k
  | _, _ => none

/-- Whether the keys of a table are pairwise distinct (always true for a
parsed `toml::value::Table`). -/
def nodupKeys : TomlTable → Bool
  | [] => true
  | (k, _) :: rest => !(tget rest k).isSome && nodupKeys rest

/-- `Path::join` for the path strings handed to the existence oracle. -/
def pathJoin (a b : String) : String :=
  a ++ "/" ++ b

/-- The per-entry check of `TomlTweaker::test_existance`
(`src/prepare.rs:236-255`): keep the entry (prepended to the already-pruned
tail) when it is a table with a string `name` whose path (the `path` entry if
present, else `<folder>/<name>.rs`) exists on disk; drop it otherwise.  A
`path` entry that is not a string makes the source panic
(`as_str().unwrap()`), modelled as `none`. -/
def testEntry (dir folder : String) (fs : String → Bool) (v : TomlValue)
    (tail : List TomlValue) : Option (List TomlValue) :=
  match v with
  | .table t =>
    match tget t "name" with
    | some (.str n) =>
      match tget t "path" with
      | none =>
        if fs (pathJoin dir (pathJoin folder (n ++ ".rs"))) then
          some (TomlValue.table t :: tail)
        else some tail
      | some (.str p) =>
        if fs (pathJoin dir p) then some (TomlValue.table t :: tail)
        else some tail
      | some _ => none
    | _ => some tail
  | _ => some tail

/-- Model of `TomlTweaker::test_existance` (`src/prepare.rs:236-255`): prune
the array through the per-entry check. -/
def testExistance (dir folder : String) (fs : String → Bool) :
    List TomlValue → Option (List TomlValue)
  | [] => some []
  | v :: rest => do
    let tail ← testExistance dir folder fs rest
    testEntry dir folder fs v tail

/-- Model of `TomlTweaker::remove_missing_items` (`src/prepare.rs:257-266`):
when a manifest directory is known and the category key holds an array,
replace it with the pruned array. -/
def removeMissingItems (dir? : Option String) (fs : String → Bool)
    (category : String) (tbl : TomlTable) : Option TomlTable :=
  match dir? with
  | none => some tbl
  | some dir =>
    match tget tbl category with
    | some (.array xs) => do
      let xs' ← testExistance dir (category ++ "s") fs xs
      some (tinsert tbl category (.array xs'))
    | _ => some tbl

/-- The `if let Some(&mut Value::Table(ref mut package)) = table.get_mut("package")
{ package.remove(key) }` pattern shared by `remove_parent_workspaces` and
`remove_unwanted_cargo_features`. -/
def pkgStrip (tbl : TomlTable) (key : String) : TomlTable :=
  match tget tbl "package" with
  | some (.table p) => tinsert tbl "package" (.table (tremove p key))
  | _ => tbl

/-- Model of `TomlTweaker::remove_parent_workspaces` (`src/prepare.rs:268-277`). -/
def removeParentWorkspaces (tbl : TomlTable) : TomlTable :=
  pkgStrip tbl "workspace"

/-- Whether an array entry is the string `name` — the `match key.as_str()`
test inside the `retain` closure (`src/prepare.rs:286-296`). -/
def isFeatureStr (name : String) : TomlValue → Bool
  | .str s => s = name
  | _ => false

/-- The `retain` predicate of `remove_unwanted_cargo_features`
(`src/prepare.rs:285-297`): keep strings other than `publish-lockfile` and
`default-run`; non-string entries are dropped. -/
def keepFeature : TomlValue → Bool
  | .str s => !(s = "publish-lockfile") && !(s = "default-run")
  | _ => false

/-- Model of `TomlTweaker::remove_unwanted_cargo_features`
(`src/prepare.rs:279-314`): filter the `cargo-features` array; when one of
the two unwanted features was present, also drop the corresponding key from
`package`. -/
def removeUnwantedCargoFeatures (tbl : TomlTable) : TomlTable :=
  match tget tbl "cargo-features" with
  | some (.array vec) =>
    let hasPublishLockfile := vec.any (isFeatureStr "publish-lockfile")
    let hasDefaultRun := vec.any (isFeatureStr "default-run")
    let t1 := tinsert tbl "cargo-features" (.array (vec.filter keepFeature))
    let t2 := if hasPublishLockfile then pkgStrip t1 "publish-lockfile" else t1
    if hasDefaultRun then pkgStrip t2 "default-run" else t2
  | _ => tbl

/-- Model of `CratePatch` (`src/build.rs:8-25`). -/
inductive CratePatch where
  | git (name uri branch : String)
  | path (name p : String)

/-- The patch directive's crate name. -/
def patchName : CratePatch → String
  | .git n _ _ => n
  | .path n _ => n

/-- The table inserted under `patch.crates-io.<name>`
(`src/prepare.rs:340-353`). -/
def patchValue : CratePatch → TomlValue
  | .git _ uri branch => .table [("git", .str uri), ("branch", .str branch)]
  | .path _ p => .table [("path", .str p)]

/-- Insert every patch entry into the `crates-io` table
(`src/prepare.rs:340-359`). -/
def insertPatches (ct : TomlTable) (patches : List CratePatch) : TomlTable :=
  patches.foldl (fun acc p => tinsert acc (patchName p) (patchValue p)) ct

/-- The `match patch_table.get_mut("crates-io")` step of `apply_patches`
(`src/prepare.rs:328-338`): keep the value when `crates-io` is present,
otherwise insert an empty `crates-io` table — which panics
(`as_table_mut().unwrap()`, modelled as `none`) when the `patch` value is not
a table. -/
def ensureCratesIo (pv : TomlValue) : Option TomlValue :=
  match vget pv "crates-io" with
  | some _ => some pv
  | none =>
    match pv with
    | .table pt => some (TomlValue.table (tinsert pt "crates-io" (.table [])))
    | _ => none

/-- `Value::as_table` — `none` models the `unwrap` panic on non-tables. -/
def asTable (v : TomlValue) : Option TomlTable :=
  match v with
  | .table t => some t
  | _ => none

/-- Write the updated `crates-io` table back into the `patch` value
(`cratesio_table.as_table_mut().unwrap()` + in-place mutation). -/
def setCratesIo (pv : TomlValue) (ct : TomlTable) : Option TomlValue :=
  match pv with
  | .table pt =>
    some (TomlValue.table (tinsert pt "crates-io" (.table ct)))
  | _ => none

/-- Model of `TomlTweaker::apply_patches` (`src/prepare.rs:316-361`): when
patches are present, make sure `patch` and `patch.crates-io` exist as tables
(an existing non-table value under either key makes the source panic on
`as_table_mut().unwrap()`, modelled as `none`), then insert every patch
entry. -/
def applyPatches (patches : List CratePatch) (tbl : TomlTable) : Option TomlTable :=
  if patches.isEmpty then some tbl
  else do
    let t1 :=
      if (tget tbl "patch").isNone then tinsert tbl "patch" (.table []) else tbl
    let pv ← tget t1 "patch"
    let pv1 ← ensureCratesIo pv
    let cio ← vget pv1 "crates-io"
    let ct ← asTable cio
    let pv2 ← setCratesIo pv1 (insertPatches ct patches)
    some (tinsert t1 "patch" pv2)

/-- Model of `TomlTweaker::tweak` (`src/prepare.rs:223-233`): the five
transformations in source order. -/
def tweak (dir? : Option String) (fs : String → Bool)
    (patches : List CratePatch) (tbl : TomlTable) : Option TomlTable := do
  let t1 ← removeMissingItems dir? fs "example" tbl
  let t2 ← removeMissingItems dir? fs "test" t1
  let t3 := removeParentWorkspaces t2
  let t4 := removeUnwantedCargoFeatures t3
  applyPatches patches t4

/-- The well-formedness of the manifest's `package` entry used by the
idempotence proof: if present and a table, its keys are unique (guaranteed
for every table produced by the TOML parser). -/
def packageNodup (tbl : TomlTable) : Bool :=
  match tget tbl "package" with
  | some (.table p) => nodupKeys p
  | _ => true

/-- Fixpoint of the example/test pruning: whenever the category key holds an
array, pruning it again changes nothing. -/
def catOk (dir? : Option String) (fs : String → Bool) (category : String)
    (tbl : TomlTable) : Prop :=
  ∀ dir, dir? = some dir → ∀ xs, tget tbl category = some (.array xs) →
    testExistance dir (category ++ "s") fs xs = some xs

/-- Fixpoint of a package-key strip: the key is absent from the `package`
table. -/
def pkgKeyAbsent (key : String) (tbl : TomlTable) : Prop :=
  ∀ p, tget tbl "package" = some (.table p) → tget p key = none

/-- Fixpoint of the cargo-features scrub: the `cargo-features` array, if any,
holds only retained entries. -/
def cfOk (tbl : TomlTable) : Prop :=
  ∀ vec, tget tbl "cargo-features" = some (.array vec) →
    vec.all keepFeature = true

/-- Fixpoint of patch application: each patch entry is already present under
`patch.crates-io` with the same value. -/
def patchOk (patches : List CratePatch) (tbl : TomlTable) : Prop :=
  patches = [] ∨
    ∃ pt ct, tget tbl "patch" = some (.table pt) ∧
      tget pt "crates-io" = some (.table ct) ∧
      ∀ p ∈ patches, tget ct (patchName p) = some (patchValue p)

/-! ## Concrete inputs used by counterexamples and witnesses -/

/-- A command with one stderr line, a nonzero exit within both timeouts, and
no capture requested (a plain `.run()`). -/
def c1spec : RunSpec :=
  { timeoutT := 100, idleI := 100, pid := 7,
    events := [⟨1, .stderr, "boom"⟩], exitTime := 2, exitStatus := 1,
    killOk := true, capture := false, cb := fun _ s => s }

/-- The same command observed through `.run_capture()`. -/
def c1wspec : RunSpec :=
  { timeoutT := 100, idleI := 100, pid := 7,
    events := [⟨1, .stderr, "boom"⟩], exitTime := 2, exitStatus := 1,
    killOk := true, capture := true, cb := fun _ s => s }

/-- A command that outlives the wall-clock timeout, emits a line after the
deadline, and whose post-timeout kill fails. -/
def c3spec : RunSpec :=
  { timeoutT := 1, idleI := 10, pid := 7,
    events := [⟨2, .stdout, "x"⟩], exitTime := 3, exitStatus := 0,
    killOk := false, capture := false, cb := fun _ s => s }

/-- A command that stays silent past the idle timeout. -/
def c3idleSpec : RunSpec :=
  { timeoutT := 100, idleI := 1, pid := 7,
    events := [⟨5, .stdout, "late"⟩], exitTime := 6, exitStatus := 0,
    killOk := true, capture := false, cb := fun _ s => s }

/-- A quiet command that outlives the wall-clock timeout; the kill succeeds. -/
def c3wallSpec : RunSpec :=
  { timeoutT := 3, idleI := 10, pid := 7,
    events := [⟨1, .stdout, "x"⟩], exitTime := 9, exitStatus := 0,
    killOk := true, capture := false, cb := fun _ s => s }

/-- A command that finishes in time with a nonzero exit status. -/
def c3okSpec : RunSpec :=
  { timeoutT := 100, idleI := 100, pid := 7,
    events := [⟨1, .stdout, "x"⟩], exitTime := 2, exitStatus := 3,
    killOk := true, capture := false, cb := fun _ s => s }

/-- A concrete manifest table exercising the workspace and cargo-features
tweaks. -/
def c7tbl : TomlTable :=
  [("cargo-features", .array [.str "default-run"]),
   ("package", .table [("default-run", .str "a"), ("workspace", .str "w")])]

/-- The tweaked form of `c7tbl`. -/
def c7out : TomlTable :=
  [("cargo-features", .array []), ("package", .table [])]

/-! # Theorems -/

/-! ## C5 — sandbox OOM reporting -/

/-- C5 counterexample: with `State.OOMKilled` set, a command result that is
neither a success nor `ExecutionFailed` — here a wall-clock timeout — is NOT
reported as `SandboxOOM`, contradicting the claim that the call's result is
reported as `SandboxOOM` whether the command's own result was a failure or an
otherwise-successful exit. -/
theorem c5_counterexample :
    containerRunCombine (.error (.timeout 5)) (.ok true) =
      .error (.timeout 5) ∧
    containerRunCombine (.error (.timeout 5)) (.ok true) ≠
      .error CommandError.sandboxOOM := by
  exact ⟨rfl, by simp [containerRunCombine]⟩

/-- C5 (amended): after a sandboxed execution the container is inspected;
when `State.OOMKilled` is true, a successful exit or an `ExecutionFailed`
error is reported as `SandboxOOM`, while any other command error is kept
as-is; when it is false the command's own result is returned; a failing
inspection propagates its own error. -/
theorem c5_amended (res : Except CommandError ProcessOutput) (e : CommandError) :
    (∀ out, res = .ok out →
      containerRunCombine res (.ok true) = .error .sandboxOOM) ∧
    (∀ st stderr, res = .error (.executionFailed st stderr) →
      containerRunCombine res (.ok true) = .error .sandboxOOM) ∧
    (res = .error e → (∀ st stderr, e ≠ .executionFailed st stderr) →
      containerRunCombine res (.ok true) = .error e) ∧
    containerRunCombine res (.ok false) = res ∧
    containerRunCombine res (.error e) = .error e := by
  refine ⟨?_, ?_, ?_, ?_, ?_⟩
  · intro out h; subst h; rfl
  · intro st stderr h; subst h; rfl
  · intro h hne; subst h
    cases e with
    | executionFailed st stderr => exact absurd rfl (hne st stderr)
    | _ => rfl
  · simp [containerRunCombine]
  · rfl

/-- C5 witness: the amended theorem applied to a concrete OOM-killed success
and a concrete OOM-killed timeout. -/
theorem c5_witness :
    containerRunCombine (.ok ⟨[], []⟩) (.ok true) =
      .error CommandError.sandboxOOM ∧
    containerRunCombine (.error (.executionFailed 9 "e")) (.ok true) =
      .error CommandError.sandboxOOM ∧
    containerRunCombine (.error (.noOutputFor 3)) (.ok true) =
      .error (.noOutputFor 3) := by
  refine ⟨?_, ?_, ?_⟩
  · exact (c5_amended (.ok ⟨[], []⟩) .sandboxOOM).1 ⟨[], []⟩ rfl
  · exact (c5_amended (.error (.executionFailed 9 "e"))
      (.executionFailed 9 "e")).2.1 9 "e" rfl
  · exact (c5_amended (.error (.noOutputFor 3)) (.noOutputFor 3)).2.2.1 rfl
      (by intro st stderr h; cases h)

/-! ## C6 — toolchain component/target operations -/

/-- C6 counterexample: adding a component to a CI toolchain fails with the
generic `failure::bail!` message of `change_rustup_thing`, not with
`ToolchainError::UnsupportedOperation` as the claim states. -/
theorem c6_counterexample :
    changeRustupThing (.ci "abc" false) .add .component "rust-src" =
      .error (.genericMessage
        "adding component on CI toolchains is not supported yet") ∧
    changeRustupThing (.ci "abc" false) .add .component "rust-src" ≠
      .error (.toolchain .unsupportedOperation) := by
  exact ⟨rfl, by simp [changeRustupThing]⟩

/-- C6 (amended): for CI toolchains the add/remove component and target
operations are disallowed and bail out with the generic error message
"<adding|removing> <component|target> on CI toolchains is not supported yet"
(while the listing operation is the one that returns
`ToolchainError::UnsupportedOperation` for CI toolchains); for dist toolchains
they invoke `rustup <component|target> <add|remove> --toolchain <rustup-name>
<name>`. -/
theorem c6_amended (sha : String) (alt : Bool) (dn : String)
    (action : RustupAction) (thing : RustupThing) (name : String) :
    changeRustupThing (.ci sha alt) action thing name =
      .error (.genericMessage (actionIngStr action ++ " " ++ thingStr thing ++
        " on CI toolchains is not supported yet")) ∧
    changeRustupThing (.dist dn) action thing name =
      .ok [thingStr thing, actionStr action, "--toolchain", dn, name] ∧
    listRustupThings (.ci sha alt) thing =
      .error (.toolchain .unsupportedOperation) := by
  exact ⟨rfl, rfl, rfl⟩

/-! ## C2 — lockfile generation and fetch (no retry) -/

/-- C2 counterexample: with a pre-existing lockfile and a failing
`cargo fetch`, the pipeline performs exactly one fetch invocation and fails —
it does not regenerate the lockfile and retry as the claim states (which
would require a second invocation). -/
theorem c2_counterexample :
    prepareLockAndFetch ⟨true, true, fun _ => false⟩ =
      (.error .fetchFailed, 1) ∧
    (prepareLockAndFetch ⟨true, true, fun _ => false⟩).2 ≠ 2 := by
  exact ⟨rfl, by decide⟩

/-- C2 (amended): after the lockfile step (which generates a lockfile only
when none exists) the pipeline runs `cargo fetch --manifest-path Cargo.toml`
exactly once; a fetch failure is propagated without regenerating the lockfile
and without a retry, and when lockfile generation itself fails no fetch is
attempted at all. -/
theorem c2_amended (env : PrepEnv) :
    (prepareLockAndFetch env).2 ≤ 1 ∧
    ((env.lockfileExists = true ∨ env.generateOk = true) →
      env.fetch 1 = false →
      prepareLockAndFetch env = (.error .fetchFailed, 1)) ∧
    (env.lockfileExists = false → env.generateOk = false →
      prepareLockAndFetch env = (.error .generateFailed, 0)) := by
  obtain ⟨l, g, f⟩ := env
  refine ⟨?_, ?_, ?_⟩
  · cases l <;> cases g <;> cases hf : f 1 <;>
      simp [prepareLockAndFetch, hf]
  · intro hor hf
    replace hf : f 1 = false := hf
    cases l with
    | true => simp [prepareLockAndFetch, hf]
    | false =>
      cases g with
      | true => simp [prepareLockAndFetch, hf]
      | false => rcases hor with h | h <;> exact Bool.noConfusion h
  · intro hl hg
    replace hl : l = false := hl
    replace hg : g = false := hg
    subst hl; subst hg
    simp [prepareLockAndFetch]

/-- C2 witness: the amended theorem applied to an environment with an existing
lockfile whose fetch fails. -/
theorem c2_witness :
    prepareLockAndFetch ⟨true, false, fun _ => false⟩ =
      (.error .fetchFailed, 1) :=
  (c2_amended ⟨true, false, fun _ => false⟩).2.1 (Or.inl rfl) rfl

/-! ## C8 — build directory lifecycle -/

/-- C8: after `BuildDirectory::run` returns successfully, `source/` does not
exist and `target/` exists; `target/` persists through every run (whatever its
outcome); and when the closure fails, `source/` — recreated by the
preparation — is left in place, i.e. it is removed only on successful
completion. -/
theorem c8_build_dir_run (s : BuildDirState) (prep : PrepOutcome)
    (closureOk : Bool) :
    ((buildDirRun s prep closureOk).1 = .success →
      (buildDirRun s prep closureOk).2.source = false ∧
      (buildDirRun s prep closureOk).2.target = true) ∧
    (s.target = true → (buildDirRun s prep closureOk).2.target = true) ∧
    (prep = .ok → closureOk = false →
      (buildDirRun s prep closureOk).1 = .closureFailed ∧
      (buildDirRun s prep closureOk).2.source = true) := by
  cases prep <;> cases closureOk <;>
    simp [buildDirRun]

/-- C8 witness: the theorem applied to a fresh directory state on the
successful path and on the failing-closure path. -/
theorem c8_witness :
    ((buildDirRun ⟨false, true⟩ .ok true).2.source = false ∧
      (buildDirRun ⟨false, true⟩ .ok true).2.target = true) ∧
    (buildDirRun ⟨true, false⟩ .ok false).2.source = true := by
  refine ⟨(c8_build_dir_run ⟨false, true⟩ .ok true).1 rfl, ?_⟩
  exact ((c8_build_dir_run ⟨true, false⟩ .ok false).2.2 rfl rfl).2

/-! ## C10 — line-transformer actions never leak across lines -/

/-- C10: the per-line loop of `log_command` threads one `ProcessLinesActions`
value through all lines, but because the state is taken (and reset to
`Original`) after every line, the loop is equal to processing each line
independently from the `Original` state; a line for which the callback
requests nothing is emitted unchanged. -/
theorem c10_actions_no_leak (cb : String → InnerState → InnerState)
    (ls : List String) :
    processLines cb .original ls =
      ls.map (fun l => linesFor l (cb l .original)) ∧
    (∀ l, cb l .original = .original →
      linesFor l (cb l .original) = [l]) := by
  constructor
  · induction ls with
    | nil => rfl
    | cons l rest ih => simpa [processLines, emitStep, takeLines] using ih
  · intro l h
    rw [h]
    rfl

/-- C10 witness: the theorem applied to a callback that removes lines
containing "secret" and leaves others untouched. -/
theorem c10_witness :
    processLines (fun l s => if containsSub l "secret" then .removed else s)
        .original ["a secret", "plain"] = [[], ["plain"]] ∧
    linesFor "plain"
        ((fun (l : String) (s : InnerState) =>
          if containsSub l "secret" then .removed else s) "plain" .original) =
      ["plain"] := by
  constructor
  · rw [(c10_actions_no_leak
      (fun l s => if containsSub l "secret" then .removed else s)
      ["a secret", "plain"]).1]
    decide
  · exact (c10_actions_no_leak
      (fun l s => if containsSub l "secret" then .removed else s)
      ["a secret", "plain"]).2 "plain" (by decide)

/-! ## C4 — failure classification by output scanning -/

theorem updateFlags_yanked (f : DepFlags) (l : String) :
    (updateFlags f l).yankedDeps = (f.yankedDeps || containsSub l sYanked) := by
  unfold updateFlags
  cases containsSub l sYanked <;>
    cases containsSub l sMissingA <;> cases containsSub l sMissingB <;>
      cases containsSub l sBrokenA <;> cases containsSub l sBrokenB <;>
        cases containsSub l sLockfile <;> simp

theorem updateFlags_missing (f : DepFlags) (l : String) :
    (updateFlags f l).missingDeps =
      (f.missingDeps ||
        (!containsSub l sYanked &&
          (containsSub l sMissingA || containsSub l sMissingB))) := by
  unfold updateFlags
  cases containsSub l sYanked <;>
    cases containsSub l sMissingA <;> cases containsSub l sMissingB <;>
      cases containsSub l sBrokenA <;> cases containsSub l sBrokenB <;>
        cases containsSub l sLockfile <;> simp

theorem updateFlags_broken (f : DepFlags) (l : String) :
    (updateFlags f l).brokenDeps =
      (f.brokenDeps ||
        (!containsSub l sYanked &&
          (!(containsSub l sMissingA || containsSub l sMissingB) &&
            (containsSub l sBrokenA || containsSub l sBrokenB)))) := by
  unfold updateFlags
  cases containsSub l sYanked <;>
    cases containsSub l sMissingA <;> cases containsSub l sMissingB <;>
      cases containsSub l sBrokenA <;> cases containsSub l sBrokenB <;>
        cases containsSub l sLockfile <;> simp

theorem updateFlags_lock (f : DepFlags) (l : String) :
    (updateFlags f l).brokenLockfile =
      (f.brokenLockfile ||
        (!containsSub l sYanked &&
          (!(containsSub l sMissingA || containsSub l sMissingB) &&
            (!(containsSub l sBrokenA || containsSub l sBrokenB) &&
              containsSub l sLockfile)))) := by
  unfold updateFlags
  cases containsSub l sYanked <;>
    cases containsSub l sMissingA <;> cases containsSub l sMissingB <;>
      cases containsSub l sBrokenA <;> cases containsSub l sBrokenB <;>
        cases containsSub l sLockfile <;> simp

theorem scanFlags_fold (lines : List String) (f0 : DepFlags) :
    (lines.foldl updateFlags f0).yankedDeps =
      (f0.yankedDeps || lines.any (fun l => containsSub l sYanked)) ∧
    (lines.foldl updateFlags f0).missingDeps =
      (f0.missingDeps || lines.any (fun l =>
        !containsSub l sYanked &&
          (containsSub l sMissingA || containsSub l sMissingB))) ∧
    (lines.foldl updateFlags f0).brokenDeps =
      (f0.brokenDeps || lines.any (fun l =>
        !containsSub l sYanked &&
          (!(containsSub l sMissingA || containsSub l sMissingB) &&
            (containsSub l sBrokenA || containsSub l sBrokenB)))) ∧
    (lines.foldl updateFlags f0).brokenLockfile =
      (f0.brokenLockfile || lines.any (fun l =>
        !containsSub l sYanked &&
          (!(containsSub l sMissingA || containsSub l sMissingB) &&
            (!(containsSub l sBrokenA || containsSub l sBrokenB) &&
              containsSub l sLockfile)))) := by
  induction lines generalizing f0 with
  | nil => simp
  | cons l rest ih =>
    obtain ⟨i1, i2, i3, i4⟩ := ih (updateFlags f0 l)
    simp only [List.foldl_cons, List.any_cons]
    rw [i1, i2, i3, i4, updateFlags_yanked, updateFlags_missing,
      updateFlags_broken, updateFlags_lock]
    refine ⟨by rw [Bool.or_assoc], by rw [Bool.or_assoc], by rw [Bool.or_assoc],
      by rw [Bool.or_assoc]⟩

theorem any_eq_of_forall {α : Type} (l : List α) (p q : α → Bool)
    (h : ∀ x ∈ l, p x = q x) : l.any p = l.any q := by
  induction l with
  | nil => rfl
  | cons a rest ih =>
    simp only [List.any_cons]
    rw [h a (by simp), ih (fun x hx => h x (by simp [hx]))]

/-- C4: the classification of `run_command` equals the specification's
description — flags for yanked / missing / broken-deps / broken-lockfile
substrings, examined in that order; the first set flag picks the
`PrepareError` variant, and with no flag set (or a non-`ExecutionFailed`
error) the underlying command error is returned verbatim. -/
theorem c4_failure_classification (lines : List String)
    (res : Except CommandError ProcessOutput) :
    runCommandModel lines res = specClassify lines res := by
  obtain ⟨hy, hm, hb, hl⟩ := scanFlags_fold lines ⟨false, false, false, false⟩
  cases res with
  | ok out => rfl
  | error e =>
    cases e with
    | executionFailed st stderr =>
      show classifyResult _ (scanFlags lines) = _
      unfold classifyResult specClassify scanFlags
      rw [hy, hm, hb, hl]
      simp only [Bool.false_or]
      cases hY : lines.any (fun l => containsSub l sYanked) with
      | true => simp [hY]
      | false =>
        have hyAll : ∀ x ∈ lines, containsSub x sYanked = false := by
          simpa using List.any_eq_false.mp hY
        rw [any_eq_of_forall lines _
            (fun l => containsSub l sMissingA || containsSub l sMissingB)
            (fun x hx => by rw [hyAll x hx]; simp)]
        cases hM : lines.any
            (fun l => containsSub l sMissingA || containsSub l sMissingB) with
        | true => simp [hM]
        | false =>
          have hmAll : ∀ x ∈ lines,
              (containsSub x sMissingA || containsSub x sMissingB) = false := by
            simpa using List.any_eq_false.mp hM
          rw [any_eq_of_forall lines _
              (fun l => containsSub l sBrokenA || containsSub l sBrokenB)
              (fun x hx => by rw [hyAll x hx, hmAll x hx]; simp)]
          cases hB : lines.any
              (fun l => containsSub l sBrokenA || containsSub l sBrokenB) with
          | true => simp [hB]
          | false =>
            have hbAll : ∀ x ∈ lines,
                (containsSub x sBrokenA || containsSub x sBrokenB) = false := by
              simpa using List.any_eq_false.mp hB
            rw [any_eq_of_forall lines _ (fun l => containsSub l sLockfile)
                (fun x hx => by rw [hyAll x hx, hmAll x hx, hbAll x hx]; simp)]
    | _ => rfl

/-! ## C9 — injectivity of `escape_path` -/

theorem inEncodeSet_lt (b : Nat) (h : inEncodeSet b = true) : b < 128 := by
  unfold inEncodeSet isControl at h
  simp only [Bool.or_eq_true, decide_eq_true_eq, Nat.beq_eq_true_eq] at h
  omega

theorem escapeByte_of_set (b : Nat) (h : inEncodeSet b = true) :
    escapeByte b = ['%', hexDigit (b / 16), hexDigit (b % 16)] := by
  unfold escapeByte shouldEncode
  rw [h]
  simp

theorem hexDigit_fin_inj :
    ∀ a b : Fin 16, hexDigit a.val = hexDigit b.val → a = b := by
  decide

theorem hexDigit_inj (a b : Nat) (ha : a < 16) (hb : b < 16)
    (h : hexDigit a = hexDigit b) : a = b := by
  have := hexDigit_fin_inj ⟨a, ha⟩ ⟨b, hb⟩ h
  simpa [Fin.mk.injEq] using this

/-- C9: `escape_path` is one-to-one across the alphabet used by the escape
set — any two byte strings drawn from the bytes of the `ENCODE_SET` that
escape to the same string are equal. -/
theorem c9_escape_injective : ∀ xs ys : List Nat,
    (∀ b ∈ xs, inEncodeSet b = true) → (∀ b ∈ ys, inEncodeSet b = true) →
    escapePath xs = escapePath ys → xs = ys := by
  intro xs
  induction xs with
  | nil =>
    intro ys _ h2 heq
    cases ys with
    | nil => rfl
    | cons y ys' =>
      exfalso
      have hdata : escapeChars [] = escapeChars (y :: ys') :=
        congrArg String.data heq
      rw [show escapeChars (y :: ys') = escapeByte y ++ escapeChars ys' from rfl,
        escapeByte_of_set y (h2 y (by simp))] at hdata
      exact List.noConfusion hdata
  | cons x xs' ih =>
    intro ys h1 h2 heq
    cases ys with
    | nil =>
      exfalso
      have hdata : escapeChars (x :: xs') = escapeChars [] :=
        congrArg String.data heq
      rw [show escapeChars (x :: xs') = escapeByte x ++ escapeChars xs' from rfl,
        escapeByte_of_set x (h1 x (by simp))] at hdata
      exact List.noConfusion hdata
    | cons y ys' =>
      have hx : inEncodeSet x = true := h1 x (by simp)
      have hy : inEncodeSet y = true := h2 y (by simp)
      have hdata : escapeChars (x :: xs') = escapeChars (y :: ys') :=
        congrArg String.data heq
      rw [show escapeChars (x :: xs') = escapeByte x ++ escapeChars xs' from rfl,
        show escapeChars (y :: ys') = escapeByte y ++ escapeChars ys' from rfl,
        escapeByte_of_set x hx, escapeByte_of_set y hy] at hdata
      simp only [List.cons_append, List.nil_append, List.cons.injEq] at hdata
      obtain ⟨-, hd1, hd2, htail⟩ := hdata
      have hxlt := inEncodeSet_lt x hx
      have hylt := inEncodeSet_lt y hy
      have hdiv : x / 16 = y / 16 :=
        hexDigit_inj _ _ (by omega) (by omega) hd1
      have hmod : x % 16 = y % 16 :=
        hexDigit_inj _ _ (by omega) (by omega) hd2
      have hxy : x = y := by omega
      subst hxy
      have : xs' = ys' :=
        ih ys' (fun b hb => h1 b (by simp [hb]))
          (fun b hb => h2 b (by simp [hb]))
          (congrArg String.mk htail)
      rw [this]

/-- C9 witness: the theorem applied to two concrete escaped byte strings. -/
theorem c9_witness : ([47, 32, 92] : List Nat) = [47, 32, 92] :=
  c9_escape_injective [47, 32, 92] [47, 32, 92]
    (by decide) (by decide) rfl

/-! ## C1, C3 — executor lemmas -/

theorem joinLines_nil : joinLines [] = "" := rfl

theorem transformedLines_cons (cb : String → InnerState → InnerState)
    (e : Ev) (rest : List Ev) (k : OutputKind) :
    transformedLines cb (e :: rest) k =
      (if e.kind == k then (emitStep cb e.line .original).1 else []) ++
        transformedLines cb rest k := by
  unfold transformedLines
  cases h : e.kind == k <;> simp [List.filter_cons, h]

theorem outLoop_seg (spec : RunSpec) (es1 : List Ev) :
    ∀ (prev : Nat) (acc : List String × List String) (rest : List Ev),
    goodSeg spec prev es1 = true →
    outLoop spec prev .original acc (es1 ++ rest) =
      outLoop spec (lastT prev es1) .original
        (if spec.capture then
          (acc.1 ++ transformedLines spec.cb es1 .stdout,
           acc.2 ++ transformedLines spec.cb es1 .stderr)
         else acc) rest := by
  induction es1 with
  | nil =>
    intro prev acc rest _
    have hacc : (if spec.capture then
        (acc.1 ++ transformedLines spec.cb [] .stdout,
         acc.2 ++ transformedLines spec.cb [] .stderr)
       else acc) = acc := by
      cases spec.capture <;> simp [transformedLines]
    rw [hacc]
    rfl
  | cons e tail ih =>
    intro prev acc rest h
    simp only [goodSeg, Bool.and_eq_true, decide_eq_true_eq] at h
    obtain ⟨⟨he1, he2⟩, h3⟩ := h
    show outLoop spec prev .original acc (e :: (tail ++ rest)) = _
    rw [outLoop]
    rw [if_neg (by rintro ⟨-, -, hgt⟩; omega), if_neg (by omega),
      if_neg (by omega)]
    show outLoop spec e.t (emitStep spec.cb e.line InnerState.original).2
      (appendIf spec.capture acc e.kind
        (emitStep spec.cb e.line InnerState.original).1) (tail ++ rest) = _
    rw [show (emitStep spec.cb e.line InnerState.original).2 =
      InnerState.original from rfl]
    rw [ih e.t (appendIf spec.capture acc e.kind
      (emitStep spec.cb e.line .original).1) rest h3]
    show _ = outLoop spec (lastT e.t tail) .original _ rest
    congr 1
    cases spec.capture with
    | false => rfl
    | true =>
      cases hk : e.kind <;>
        simp [appendIf, transformedLines_cons, hk, List.append_assoc]

theorem outLoop_finish (spec : RunSpec) (prev : Nat)
    (acc : List String × List String)
    (h : streamEnd spec ≤ prev + spec.idleI) :
    outLoop spec prev .original acc [] = .ok acc := by
  rw [outLoop, if_neg (by omega)]

theorem outLoop_ok (spec : RunSpec)
    (h1 : goodSeg spec 0 spec.events = true)
    (h2 : spec.exitTime ≤ spec.timeoutT)
    (h3 : spec.exitTime ≤ lastT 0 spec.events + spec.idleI) :
    outLoop spec 0 .original ([], []) spec.events =
      .ok (if spec.capture then
        (transformedLines spec.cb spec.events .stdout,
         transformedLines spec.cb spec.events .stderr)
       else ([], [])) := by
  have hseg := outLoop_seg spec spec.events 0 ([], []) [] h1
  rw [List.append_nil] at hseg
  rw [hseg]
  have hend : streamEnd spec = spec.exitTime := by
    unfold streamEnd
    rw [if_neg (by rintro ⟨hgt, -⟩; omega)]
  rw [outLoop_finish spec _ _ (by rw [hend]; exact h3)]
  cases spec.capture <;> simp

/-- C1 (amended): for an unsandboxed command within both timeouts whose child
exits with a nonzero status, the call fails with
`ExecutionFailed { status, stderr }` where `stderr` is the newline-joined
transformed stderr lines when the caller requested capture
(`.run_capture()`), and the empty string when it did not (`.run()`): the
executor only retains stderr in the capture buffers when capture was
requested. -/
theorem c1_amended (spec : RunSpec)
    (h1 : goodSeg spec 0 spec.events = true)
    (h2 : spec.exitTime ≤ spec.timeoutT)
    (h3 : spec.exitTime ≤ lastT 0 spec.events + spec.idleI)
    (h4 : spec.exitStatus ≠ 0) :
    runInnerModel spec = .error (.executionFailed spec.exitStatus
      (if spec.capture then
        joinLines (transformedLines spec.cb spec.events .stderr)
       else "")) := by
  unfold runInnerModel logCommandModel
  rw [outLoop_ok spec h1 h2 h3]
  have hchild : childResult spec = .ok spec.exitStatus := by
    unfold childResult
    rw [if_neg (by omega)]
  rw [hchild]
  cases spec.capture <;> simp [h4, joinLines_nil]

/-- C1 witness: the amended theorem applied to a capturing run of a command
that prints one stderr line and exits with status 1. -/
theorem c1_witness :
    runInnerModel c1wspec = .error (.executionFailed 1
      (if c1wspec.capture then
        joinLines (transformedLines c1wspec.cb c1wspec.events .stderr)
       else "")) :=
  c1_amended c1wspec (by decide) (by decide) (by decide) (by decide)

/-- C1 counterexample: the same command run without capture (`.run()`) fails
with an EMPTY `stderr` even though it printed "boom" on stderr — the claim
that the joined stderr text is present even when the caller did not request
output capture is false. -/
theorem c1_counterexample :
    runInnerModel c1spec = .error (.executionFailed 1 "") ∧
    joinLines (transformedLines c1spec.cb c1spec.events .stderr) = "boom" ∧
    runInnerModel c1spec ≠
      .error (.executionFailed 1
        (joinLines (transformedLines c1spec.cb c1spec.events .stderr))) := by
  refine ⟨by decide, by decide, ?_⟩
  intro h
  rw [show joinLines (transformedLines c1spec.cb c1spec.events .stderr) =
    "boom" from by decide] at h
  have : runInnerModel c1spec = .error (.executionFailed 1 "") := by decide
  rw [this] at h
  simp at h

/-! ## C3 — timeout and kill behaviour -/

theorem outLoop_no_exec (spec : RunSpec) :
    ∀ (evs : List Ev) (prev : Nat) (st : InnerState)
      (acc : List String × List String) (s : Nat) (stderr : String),
    outLoop spec prev st acc evs ≠ .error (.executionFailed s stderr) := by
  intro evs
  induction evs with
  | nil =>
    intro prev st acc s stderr
    rw [outLoop]
    split
    · unfold idleError
      split <;> intro h <;> cases h
    · intro h; cases h
  | cons e tail ih =>
    intro prev st acc s stderr
    rw [outLoop]
    split
    · split
      · unfold idleError
        split <;> intro h <;> cases h
      · intro h; cases h
    · split
      · unfold idleError
        split <;> intro h <;> cases h
      · split
        · intro h; cases h
        · exact ih e.t _ _ s stderr

/-- C3 (amended): (1) a timeout-triggered kill and an `ExecutionFailed`
result are mutually exclusive; (2) when the output goes silent for longer
than the idle timeout `I` (with everything before in bounds), the child is
killed and the call fails with `NoOutputFor(I)`, or with
`KillAfterTimeoutFailed` when that kill fails; (3) when the wall-clock
timeout `T` elapses before the child's exit and no line arrives after the
deadline, the call fails with `Timeout(T)`, or with `KillAfterTimeoutFailed`
when the kill fails; (4) however, when the kill fails AND a line arrives
after the deadline, the in-line wall-clock check fires and the call fails
with `Timeout(T)` — the kill failure is NOT reported, contrary to the claim
that the original timeout cause is always dropped in favour of the kill
diagnosis. -/
theorem c3_amended (spec : RunSpec) :
    (∀ s stderr, runInnerModel spec = .error (.executionFailed s stderr) →
      killAttempted spec = false) ∧
    (∀ es1 (e : Ev) es2, spec.events = es1 ++ e :: es2 →
      goodSeg spec 0 es1 = true → e.t ≤ spec.timeoutT →
      e.t > lastT 0 es1 + spec.idleI →
      runInnerModel spec = .error (idleError spec)) ∧
    (goodSeg spec 0 spec.events = true → spec.exitTime > spec.timeoutT →
      (if spec.killOk then spec.timeoutT else spec.exitTime) ≤
        lastT 0 spec.events + spec.idleI →
      runInnerModel spec =
        .error (if spec.killOk then .timeout spec.timeoutT
                else .killAfterTimeoutFailed spec.pid)) ∧
    (∀ es1 (e : Ev) es2, spec.events = es1 ++ e :: es2 →
      goodSeg spec 0 es1 = true → spec.killOk = false →
      e.t ≤ lastT 0 es1 + spec.idleI → e.t > spec.timeoutT →
      runInnerModel spec = .error (.timeout spec.timeoutT)) := by
  refine ⟨?_, ?_, ?_, ?_⟩
  · -- mutual exclusion
    intro s stderr h
    unfold killAttempted
    cases hout : outLoop spec 0 .original ([], []) spec.events with
    | error e =>
      exfalso
      have hr : runInnerModel spec = .error e := by
        unfold runInnerModel logCommandModel
        rw [hout]
      rw [hr] at h
      injection h with h2
      exact outLoop_no_exec spec spec.events 0 .original ([], []) s stderr
        (h2 ▸ hout)
    | ok acc =>
      by_cases hT : spec.exitTime > spec.timeoutT
      · exfalso
        have hr : runInnerModel spec =
            .error (if spec.killOk then CommandError.timeout spec.timeoutT
                    else CommandError.killAfterTimeoutFailed spec.pid) := by
          unfold runInnerModel logCommandModel childResult
          rw [hout, if_pos hT]
        rw [hr] at h
        injection h with h2
        cases hk : spec.killOk <;> rw [hk] at h2 <;> cases h2
      · simp [hT]
  · -- idle timeout
    intro es1 e es2 hev hseg hle hgt
    unfold runInnerModel logCommandModel
    rw [hev, outLoop_seg spec es1 0 ([], []) (e :: es2) hseg]
    rw [outLoop]
    rw [if_neg (by rintro ⟨-, -, hx⟩; omega), if_pos (by omega)]
  · -- wall-clock timeout, no line after the deadline
    intro hseg hgt hend
    unfold runInnerModel logCommandModel
    have h1 := outLoop_seg spec spec.events 0 ([], []) [] hseg
    rw [List.append_nil] at h1
    rw [h1]
    have hse : streamEnd spec ≤ lastT 0 spec.events + spec.idleI := by
      unfold streamEnd
      cases hk : spec.killOk with
      | true => rw [if_pos ⟨hgt, rfl⟩]; rw [hk] at hend; simpa using hend
      | false =>
        rw [if_neg (by rintro ⟨-, hko⟩; exact Bool.noConfusion hko)]
        rw [hk] at hend; simpa using hend
    rw [outLoop_finish spec _ _ hse]
    have hchild : childResult spec =
        .error (if spec.killOk then .timeout spec.timeoutT
                else .killAfterTimeoutFailed spec.pid) := by
      unfold childResult
      rw [if_pos (by omega)]
    rw [hchild]
  · -- kill failure masked by the in-line wall-clock check
    intro es1 e es2 hev hseg hko hle hgt
    unfold runInnerModel logCommandModel
    rw [hev, outLoop_seg spec es1 0 ([], []) (e :: es2) hseg]
    rw [outLoop]
    rw [if_neg (by rintro ⟨-, hk, -⟩; rw [hko] at hk; cases hk),
      if_neg (by omega), if_pos (by omega)]

/-- C3 counterexample: a command that outlives the wall-clock timeout, whose
post-timeout kill fails, and which emits a line after the deadline: a kill was
attempted and failed, yet the call reports `Timeout`, not
`KillAfterTimeoutFailed` — the claim that a failing post-timeout kill always
replaces the timeout cause is false. -/
theorem c3_counterexample :
    killAttempted c3spec = true ∧
    c3spec.killOk = false ∧
    runInnerModel c3spec = .error (.timeout 1) ∧
    runInnerModel c3spec ≠ .error (.killAfterTimeoutFailed c3spec.pid) := by
  refine ⟨by decide, by decide, by decide, ?_⟩
  intro h
  have : runInnerModel c3spec = .error (.timeout 1) := by decide
  rw [this] at h
  simp at h

/-- C3 witness: the amended theorem applied to concrete runs — an idle
timeout with a successful kill, a wall-clock timeout with a successful kill,
a nonzero in-bounds exit (no kill attempted), and the masked kill failure. -/
theorem c3_witness :
    runInnerModel c3idleSpec = .error (idleError c3idleSpec) ∧
    runInnerModel c3wallSpec =
      .error (if c3wallSpec.killOk then .timeout c3wallSpec.timeoutT
              else .killAfterTimeoutFailed c3wallSpec.pid) ∧
    killAttempted c3okSpec = false ∧
    runInnerModel c3spec = .error (.timeout c3spec.timeoutT) := by
  refine ⟨?_, ?_, ?_, ?_⟩
  · exact (c3_amended c3idleSpec).2.1 [] ⟨5, .stdout, "late"⟩ [] rfl rfl
      (by decide) (by decide)
  · exact (c3_amended c3wallSpec).2.2.1 (by decide) (by decide) (by decide)
  · exact (c3_amended c3okSpec).1 3
      (joinLines (transformedLines c3okSpec.cb c3okSpec.events .stderr))
      (by decide)
  · exact (c3_amended c3spec).2.2.2 [] ⟨2, .stdout, "x"⟩ [] rfl rfl rfl
      (by decide) (by decide)

/-! ## C7 — table lemmas -/

theorem tget_tinsert_self (m : TomlTable) (k : String) (v : TomlValue) :
    tget (tinsert m k v) k = some v := by
  induction m with
  | nil => simp [tinsert, tget]
  | cons kv rest ih =>
    obtain ⟨k', v'⟩ := kv
    by_cases h : k = k'
    · subst h; simp [tinsert, tget]
    · simp [tinsert, tget, h, ih]

theorem tget_tinsert_ne (m : TomlTable) (k k2 : String) (v : TomlValue)
    (h : k2 ≠ k) : tget (tinsert m k v) k2 = tget m k2 := by
  induction m with
  | nil => simp [tinsert, tget, h]
  | cons kv rest ih =>
    obtain ⟨k', v'⟩ := kv
    by_cases hk : k = k'
    · subst hk; simp [tinsert, tget, h]
    · by_cases hk2 : k2 = k'
      · subst hk2; simp [tinsert, tget, hk]
      · simp [tinsert, tget, hk, hk2, ih]

theorem tinsert_tget_eq (m : TomlTable) (k : String) (v : TomlValue)
    (h : tget m k = some v) : tinsert m k v = m := by
  induction m with
  | nil => simp [tget] at h
  | cons kv rest ih =>
    obtain ⟨k', v'⟩ := kv
    by_cases hk : k = k'
    · subst hk
      simp [tget] at h
      simp [tinsert, h]
    · simp [tget, hk] at h
      simp [tinsert, hk, ih h]

theorem tget_tremove_ne (m : TomlTable) (k k2 : String) (h : k2 ≠ k) :
    tget (tremove m k) k2 = tget m k2 := by
  induction m with
  | nil => simp [tremove]
  | cons kv rest ih =>
    obtain ⟨k', v'⟩ := kv
    by_cases hk : k = k'
    · subst hk; simp [tremove, tget, h]
    · by_cases hk2 : k2 = k'
      · subst hk2; simp [tremove, tget, hk]
      · simp [tremove, tget, hk, hk2, ih]

theorem tremove_absent (m : TomlTable) (k : String) (h : tget m k = none) :
    tremove m k = m := by
  induction m with
  | nil => rfl
  | cons kv rest ih =>
    obtain ⟨k', v'⟩ := kv
    by_cases hk : k = k'
    · subst hk; simp [tget] at h
    · simp [tget, hk] at h
      simp [tremove, hk, ih h]

theorem tget_tremove_self (m : TomlTable) (k : String)
    (h : nodupKeys m = true) : tget (tremove m k) k = none := by
  induction m with
  | nil => rfl
  | cons kv rest ih =>
    obtain ⟨k', v'⟩ := kv
    simp only [nodupKeys, Bool.and_eq_true] at h
    obtain ⟨h1, h2⟩ := h
    replace h1 : tget rest k' = none := by
      cases hg : tget rest k' <;> simp [hg] at h1 ⊢
    by_cases hk : k = k'
    · subst hk; simp [tremove, h1]
    · simp [tremove, tget, hk, ih h2]

theorem tget_tremove_none (m : TomlTable) (k k2 : String)
    (h : tget m k2 = none) : tget (tremove m k) k2 = none := by
  by_cases hk : k2 = k
  · subst hk
    rw [tremove_absent m k2 h]
    exact h
  · rw [tget_tremove_ne m k k2 hk]
    exact h

/-! ## C7 — transport helpers -/

theorem catOk_tget_eq {dir? : Option String} {fs : String → Bool}
    {cat : String} {t1 t2 : TomlTable} (h : tget t2 cat = tget t1 cat)
    (hc : catOk dir? fs cat t1) : catOk dir? fs cat t2 :=
  fun dir hd xs hx => hc dir hd xs (by rw [← h]; exact hx)

theorem cfOk_tget_eq {t1 t2 : TomlTable}
    (h : tget t2 "cargo-features" = tget t1 "cargo-features")
    (hc : cfOk t1) : cfOk t2 :=
  fun vec hx => hc vec (by rw [← h]; exact hx)

theorem pkgAbsent_tget_eq {w : String} {t1 t2 : TomlTable}
    (h : tget t2 "package" = tget t1 "package")
    (hp : pkgKeyAbsent w t1) : pkgKeyAbsent w t2 :=
  fun p hx => hp p (by rw [← h]; exact hx)

theorem packageNodup_tget_eq (t1 t2 : TomlTable)
    (h : tget t2 "package" = tget t1 "package") :
    packageNodup t2 = packageNodup t1 := by
  unfold packageNodup
  rw [h]

/-! ## C7 — `pkgStrip` lemmas -/

theorem pkgStrip_table (t : TomlTable) (key : String)
    (p : List (String × TomlValue))
    (hp : tget t "package" = some (.table p)) :
    pkgStrip t key = tinsert t "package" (.table (tremove p key)) := by
  unfold pkgStrip
  rw [hp]

theorem pkgStrip_id (t : TomlTable) (key : String)
    (hp : ∀ p, tget t "package" ≠ some (.table p)) :
    pkgStrip t key = t := by
  unfold pkgStrip
  cases hv : tget t "package" with
  | none => rfl
  | some v =>
    cases v
    case table p => exact absurd hv (hp p)
    all_goals rfl

theorem pkgStrip_tget_ne (t : TomlTable) (key k : String)
    (h : k ≠ "package") : tget (pkgStrip t key) k = tget t k := by
  cases hv : tget t "package" with
  | none => rw [pkgStrip_id t key (by rw [hv]; intro p hc; cases hc)]
  | some v =>
    cases v
    case table p =>
      rw [pkgStrip_table t key p hv, tget_tinsert_ne _ _ _ _ h]
    all_goals rw [pkgStrip_id t key (by rw [hv]; intro p hc; cases hc)]

theorem pkgStrip_of_absent (t : TomlTable) (key : String)
    (h : pkgKeyAbsent key t) : pkgStrip t key = t := by
  cases hv : tget t "package" with
  | none => exact pkgStrip_id t key (by rw [hv]; intro p hc; cases hc)
  | some v =>
    cases v
    case table p =>
      rw [pkgStrip_table t key p hv, tremove_absent p key (h p hv),
        tinsert_tget_eq t _ _ hv]
    all_goals exact pkgStrip_id t key (by rw [hv]; intro p hc; cases hc)

theorem pkgStrip_transport (t : TomlTable) (key w : String)
    (h : pkgKeyAbsent w t) : pkgKeyAbsent w (pkgStrip t key) := by
  intro p0 h0
  cases hv : tget t "package" with
  | none =>
    rw [pkgStrip_id t key (by rw [hv]; intro p hc; cases hc)] at h0
    exact h p0 h0
  | some v =>
    cases v
    case table p =>
      rw [pkgStrip_table t key p hv, tget_tinsert_self] at h0
      injection h0 with h0
      injection h0 with h0
      subst h0
      exact tget_tremove_none p key w (h p hv)
    all_goals
      rw [pkgStrip_id t key (by rw [hv]; intro p hc; cases hc)] at h0
    all_goals exact h p0 h0

theorem pkgStrip_establishes (t : TomlTable) (key : String)
    (h : packageNodup t = true) : pkgKeyAbsent key (pkgStrip t key) := by
  intro p0 h0
  cases hv : tget t "package" with
  | none =>
    rw [pkgStrip_id t key (by rw [hv]; intro p hc; cases hc), hv] at h0
    exact Option.noConfusion h0
  | some v =>
    cases v
    case table p =>
      rw [pkgStrip_table t key p hv, tget_tinsert_self] at h0
      injection h0 with h0
      injection h0 with h0
      subst h0
      have hnd : nodupKeys p = true := by
        unfold packageNodup at h
        simpa [hv] using h
      exact tget_tremove_self p key hnd
    all_goals
      rw [pkgStrip_id t key (by rw [hv]; intro p hc; cases hc), hv] at h0
    all_goals simp at h0

/-! ## C7 — example/test pruning -/

theorem testExistance_cons (dir folder : String) (fs : String → Bool)
    (v : TomlValue) (rest : List TomlValue) :
    testExistance dir folder fs (v :: rest) =
      (testExistance dir folder fs rest).bind
        (fun tail => testEntry dir folder fs v tail) := rfl

theorem testEntry_other (dir folder : String) (fs : String → Bool)
    (v : TomlValue) (tail : List TomlValue) (h : ∀ t, v ≠ .table t) :
    testEntry dir folder fs v tail = some tail := by
  cases v
  case table t => exact absurd rfl (h t)
  all_goals rfl

theorem testEntry_noName (dir folder : String) (fs : String → Bool)
    (t : List (String × TomlValue)) (tail : List TomlValue)
    (hn : tget t "name" = none) :
    testEntry dir folder fs (.table t) tail = some tail := by
  simp only [testEntry]
  rw [hn]

theorem testEntry_nameNotStr (dir folder : String) (fs : String → Bool)
    (t : List (String × TomlValue)) (tail : List TomlValue) (vn : TomlValue)
    (hn : tget t "name" = some vn) (hns : ∀ s, vn ≠ .str s) :
    testEntry dir folder fs (.table t) tail = some tail := by
  simp only [testEntry]
  rw [hn]
  cases vn
  case str s => exact absurd rfl (hns s)
  all_goals rfl

theorem testEntry_noPath (dir folder : String) (fs : String → Bool)
    (t : List (String × TomlValue)) (tail : List TomlValue) (n : String)
    (hn : tget t "name" = some (.str n)) (hp : tget t "path" = none) :
    testEntry dir folder fs (.table t) tail =
      if fs (pathJoin dir (pathJoin folder (n ++ ".rs"))) then
        some (TomlValue.table t :: tail)
      else some tail := by
  simp only [testEntry]
  rw [hn, hp]

theorem testEntry_pathStr (dir folder : String) (fs : String → Bool)
    (t : List (String × TomlValue)) (tail : List TomlValue) (n p : String)
    (hn : tget t "name" = some (.str n))
    (hp : tget t "path" = some (.str p)) :
    testEntry dir folder fs (.table t) tail =
      if fs (pathJoin dir p) then some (TomlValue.table t :: tail)
      else some tail := by
  simp only [testEntry]
  rw [hn, hp]

theorem testEntry_pathBad (dir folder : String) (fs : String → Bool)
    (t : List (String × TomlValue)) (tail : List TomlValue) (n : String)
    (vp : TomlValue) (hn : tget t "name" = some (.str n))
    (hp : tget t "path" = some vp) (hps : ∀ s, vp ≠ .str s) :
    testEntry dir folder fs (.table t) tail = none := by
  simp only [testEntry]
  rw [hn, hp]
  cases vp
  case str s => exact absurd rfl (hps s)
  all_goals rfl

theorem testExistance_fix (dir folder : String) (fs : String → Bool) :
    ∀ xs ys, testExistance dir folder fs xs = some ys →
      testExistance dir folder fs ys = some ys := by
  intro xs
  induction xs with
  | nil =>
    intro ys h
    rw [testExistance] at h
    injection h with h
    subst h
    rfl
  | cons v rest ih =>
    intro ys h
    rw [testExistance_cons] at h
    cases ht : testExistance dir folder fs rest with
    | none => rw [ht] at h; exact Option.noConfusion h
    | some tail =>
      rw [ht] at h
      simp only [Option.some_bind] at h
      have htail : testExistance dir folder fs tail = some tail := ih tail ht
      cases v
      case table t =>
        cases hn : tget t "name" with
        | none =>
          rw [testEntry_noName dir folder fs t tail hn] at h
          injection h with h
          subst h
          exact htail
        | some vn =>
          cases vn
          case str n =>
            cases hpth : tget t "path" with
            | none =>
              rw [testEntry_noPath dir folder fs t tail n hn hpth] at h
              cases hfs : fs (pathJoin dir (pathJoin folder (n ++ ".rs"))) with
              | true =>
                rw [if_pos hfs] at h
                injection h with h
                subst h
                rw [testExistance_cons, htail]
                simp only [Option.some_bind]
                rw [testEntry_noPath dir folder fs t tail n hn hpth,
                  if_pos hfs]
              | false =>
                rw [if_neg (by rw [hfs]; exact Bool.noConfusion)] at h
                injection h with h
                subst h
                exact htail
            | some vp =>
              cases vp
              case str p =>
                rw [testEntry_pathStr dir folder fs t tail n p hn hpth] at h
                cases hfs : fs (pathJoin dir p) with
                | true =>
                  rw [if_pos hfs] at h
                  injection h with h
                  subst h
                  rw [testExistance_cons, htail]
                  simp only [Option.some_bind]
                  rw [testEntry_pathStr dir folder fs t tail n p hn hpth,
                    if_pos hfs]
                | false =>
                  rw [if_neg (by rw [hfs]; exact Bool.noConfusion)] at h
                  injection h with h
                  subst h
                  exact htail
              all_goals
                rw [testEntry_pathBad dir folder fs t tail n _ hn hpth
                  (by intro s hc; cases hc)] at h
              all_goals exact Option.noConfusion h
          all_goals
            rw [testEntry_nameNotStr dir folder fs t tail _ hn
              (by intro s hc; cases hc)] at h
          all_goals injection h with h
          all_goals subst h
          all_goals exact htail
      all_goals
        rw [testEntry_other dir folder fs _ tail (by intro tt hc; cases hc)] at h
      all_goals injection h with h
      all_goals subst h
      all_goals exact htail

theorem removeMissingItems_arr (dir : String) (fs : String → Bool)
    (cat : String) (tbl : TomlTable) (xs : List TomlValue)
    (hg : tget tbl cat = some (.array xs)) :
    removeMissingItems (some dir) fs cat tbl =
      (testExistance dir (cat ++ "s") fs xs).bind
        (fun xs' => some (tinsert tbl cat (.array xs'))) := by
  unfold removeMissingItems
  rw [hg]
  rfl

theorem removeMissingItems_id (dir : String) (fs : String → Bool)
    (cat : String) (tbl : TomlTable)
    (hg : ∀ xs, tget tbl cat ≠ some (.array xs)) :
    removeMissingItems (some dir) fs cat tbl = some tbl := by
  unfold removeMissingItems
  cases hv : tget tbl cat with
  | none => rfl
  | some v =>
    cases v
    case array xs => exact absurd hv (hg xs)
    all_goals rfl

theorem removeMissingItems_tget (dir? : Option String) (fs : String → Bool)
    (cat : String) (tbl u : TomlTable)
    (h : removeMissingItems dir? fs cat tbl = some u)
    (k : String) (hk : k ≠ cat) : tget u k = tget tbl k := by
  cases dir? with
  | none => injection h with h; subst h; rfl
  | some dir =>
    cases hg : tget tbl cat with
    | none =>
      rw [removeMissingItems_id dir fs cat tbl
        (by rw [hg]; intro xs hc; cases hc)] at h
      injection h with h; subst h; rfl
    | some v =>
      cases v
      case array xs =>
        rw [removeMissingItems_arr dir fs cat tbl xs hg] at h
        cases ht : testExistance dir (cat ++ "s") fs xs with
        | none => rw [ht] at h; exact Option.noConfusion h
        | some xs' =>
          rw [ht] at h
          simp only [Option.bind_eq_bind, Option.some_bind] at h
          injection h with h
          subst h
          rw [tget_tinsert_ne _ _ _ _ hk]
      all_goals
        rw [removeMissingItems_id dir fs cat tbl
          (by rw [hg]; intro xs hc; cases hc)] at h
      all_goals injection h with h
      all_goals subst h
      all_goals rfl

theorem removeMissingItems_of_catOk (dir? : Option String)
    (fs : String → Bool) (cat : String) (tbl : TomlTable)
    (h : catOk dir? fs cat tbl) :
    removeMissingItems dir? fs cat tbl = some tbl := by
  cases dir? with
  | none => rfl
  | some dir =>
    cases hg : tget tbl cat with
    | none =>
      exact removeMissingItems_id dir fs cat tbl
        (by rw [hg]; intro xs hc; cases hc)
    | some v =>
      cases v
      case array xs =>
        rw [removeMissingItems_arr dir fs cat tbl xs hg, h dir rfl xs hg]
        simp only [Option.bind_eq_bind, Option.some_bind]
        rw [tinsert_tget_eq tbl cat _ hg]
      all_goals
        exact removeMissingItems_id dir fs cat tbl
          (by rw [hg]; intro xs hc; cases hc)

theorem removeMissingItems_catOk (dir? : Option String)
    (fs : String → Bool) (cat : String) (tbl u : TomlTable)
    (h : removeMissingItems dir? fs cat tbl = some u) :
    catOk dir? fs cat u := by
  intro dir hdir xs0 hx0
  subst hdir
  cases hg : tget tbl cat with
  | none =>
    rw [removeMissingItems_id dir fs cat tbl
      (by rw [hg]; intro xs hc; cases hc)] at h
    injection h with h
    subst h
    rw [hg] at hx0
    exact Option.noConfusion hx0
  | some v =>
    cases v
    case array xs =>
      rw [removeMissingItems_arr dir fs cat tbl xs hg] at h
      cases ht : testExistance dir (cat ++ "s") fs xs with
      | none => rw [ht] at h; exact Option.noConfusion h
      | some xs' =>
        rw [ht] at h
        simp only [Option.bind_eq_bind, Option.some_bind] at h
        injection h with h
        subst h
        rw [tget_tinsert_self] at hx0
        injection hx0 with hx0
        injection hx0 with hx0
        subst hx0
        exact testExistance_fix dir (cat ++ "s") fs xs xs' ht
    all_goals
      rw [removeMissingItems_id dir fs cat tbl
        (by rw [hg]; intro xs hc; cases hc)] at h
    all_goals injection h with h
    all_goals subst h
    all_goals rw [hg] at hx0
    all_goals injection hx0 with hx0
    all_goals exact TomlValue.noConfusion hx0

/-! ## C7 — cargo-features scrub -/

theorem keepFeature_no_flags (v : TomlValue) (h : keepFeature v = true) :
    isFeatureStr "publish-lockfile" v = false ∧
      isFeatureStr "default-run" v = false := by
  cases v
  case str s =>
    simp only [keepFeature, Bool.and_eq_true, Bool.not_eq_true',
      decide_eq_false_iff_not] at h
    simp [isFeatureStr, h.1, h.2]
  all_goals simp [keepFeature] at h

theorem rucf_id (tbl : TomlTable)
    (h : ∀ vec, tget tbl "cargo-features" ≠ some (.array vec)) :
    removeUnwantedCargoFeatures tbl = tbl := by
  unfold removeUnwantedCargoFeatures
  cases hv : tget tbl "cargo-features" with
  | none => rfl
  | some v =>
    cases v
    case array vec => exact absurd hv (h vec)
    all_goals rfl

theorem rucf_arr (tbl : TomlTable) (vec : List TomlValue)
    (hg : tget tbl "cargo-features" = some (.array vec)) :
    removeUnwantedCargoFeatures tbl =
      (if vec.any (isFeatureStr "default-run") then
        pkgStrip
          (if vec.any (isFeatureStr "publish-lockfile") then
            pkgStrip
              (tinsert tbl "cargo-features" (.array (vec.filter keepFeature)))
              "publish-lockfile"
          else tinsert tbl "cargo-features" (.array (vec.filter keepFeature)))
          "default-run"
      else
        (if vec.any (isFeatureStr "publish-lockfile") then
          pkgStrip
            (tinsert tbl "cargo-features" (.array (vec.filter keepFeature)))
            "publish-lockfile"
        else tinsert tbl "cargo-features" (.array (vec.filter keepFeature)))) := by
  unfold removeUnwantedCargoFeatures
  rw [hg]

theorem removeUnwantedCargoFeatures_of_cfOk (tbl : TomlTable) (h : cfOk tbl) :
    removeUnwantedCargoFeatures tbl = tbl := by
  cases hv : tget tbl "cargo-features" with
  | none => exact rucf_id tbl (by rw [hv]; intro vec hc; cases hc)
  | some v =>
    cases v
    case array vec =>
      have hall : vec.all keepFeature = true := h vec hv
      have hmem : ∀ x ∈ vec, keepFeature x = true := by
        simpa using List.all_eq_true.mp hall
      have hpub : vec.any (isFeatureStr "publish-lockfile") = false :=
        List.any_eq_false.mpr
          (fun x hx => by simp [(keepFeature_no_flags x (hmem x hx)).1])
      have hrun : vec.any (isFeatureStr "default-run") = false :=
        List.any_eq_false.mpr
          (fun x hx => by simp [(keepFeature_no_flags x (hmem x hx)).2])
      have hfil : vec.filter keepFeature = vec :=
        List.filter_eq_self.mpr hmem
      rw [rucf_arr tbl vec hv, hpub, hrun, hfil]
      simp only [Bool.false_eq_true, if_false]
      exact tinsert_tget_eq tbl _ _ hv
    all_goals exact rucf_id tbl (by rw [hv]; intro vec hc; cases hc)

theorem removeUnwantedCargoFeatures_cfOk (tbl : TomlTable) :
    cfOk (removeUnwantedCargoFeatures tbl) := by
  intro vec0 h0
  cases hv : tget tbl "cargo-features" with
  | none =>
    rw [rucf_id tbl (by rw [hv]; intro vec hc; cases hc), hv] at h0
    exact Option.noConfusion h0
  | some v =>
    cases v
    case array vec =>
      rw [rucf_arr tbl vec hv] at h0
      have hne : ("cargo-features" : String) ≠ "package" := by decide
      have hT1 : tget (tinsert tbl "cargo-features"
          (.array (vec.filter keepFeature))) "cargo-features" =
          some (.array (vec.filter keepFeature)) := tget_tinsert_self _ _ _
      cases hpub : vec.any (isFeatureStr "publish-lockfile") <;>
        cases hrun : vec.any (isFeatureStr "default-run") <;>
          rw [hpub, hrun] at h0 <;>
            simp only [Bool.false_eq_true, if_false, if_true] at h0 <;>
              first
              | (rw [pkgStrip_tget_ne _ _ _ hne, pkgStrip_tget_ne _ _ _ hne,
                  hT1] at h0
                 injection h0 with h0
                 injection h0 with h0
                 subst h0
                 exact List.all_eq_true.mpr
                   (fun x hx => (List.mem_filter.mp hx).2))
              | (rw [pkgStrip_tget_ne _ _ _ hne, hT1] at h0
                 injection h0 with h0
                 injection h0 with h0
                 subst h0
                 exact List.all_eq_true.mpr
                   (fun x hx => (List.mem_filter.mp hx).2))
              | (rw [hT1] at h0
                 injection h0 with h0
                 injection h0 with h0
                 subst h0
                 exact List.all_eq_true.mpr
                   (fun x hx => (List.mem_filter.mp hx).2))
    all_goals
      rw [rucf_id tbl (by rw [hv]; intro vec hc; cases hc), hv] at h0
    all_goals injection h0 with h0
    all_goals exact TomlValue.noConfusion h0

theorem rucf_tget (tbl : TomlTable) (k : String)
    (h1 : k ≠ "cargo-features") (h2 : k ≠ "package") :
    tget (removeUnwantedCargoFeatures tbl) k = tget tbl k := by
  cases hv : tget tbl "cargo-features" with
  | none => rw [rucf_id tbl (by rw [hv]; intro vec hc; cases hc)]
  | some v =>
    cases v
    case array vec =>
      rw [rucf_arr tbl vec hv]
      cases hpub : vec.any (isFeatureStr "publish-lockfile") <;>
        cases hrun : vec.any (isFeatureStr "default-run") <;>
          simp only [Bool.false_eq_true, if_false, if_true] <;>
            (try rw [pkgStrip_tget_ne _ _ _ h2]) <;>
              (try rw [pkgStrip_tget_ne _ _ _ h2]) <;>
                exact tget_tinsert_ne _ _ _ _ h1
    all_goals rw [rucf_id tbl (by rw [hv]; intro vec hc; cases hc)]

theorem rucf_pkgAbsent (tbl : TomlTable) (w : String)
    (h : pkgKeyAbsent w tbl) :
    pkgKeyAbsent w (removeUnwantedCargoFeatures tbl) := by
  cases hv : tget tbl "cargo-features" with
  | none =>
    rw [rucf_id tbl (by rw [hv]; intro vec hc; cases hc)]
    exact h
  | some v =>
    cases v
    case array vec =>
      rw [rucf_arr tbl vec hv]
      have hne : ("package" : String) ≠ "cargo-features" := by decide
      have h1 : pkgKeyAbsent w
          (tinsert tbl "cargo-features" (.array (vec.filter keepFeature))) :=
        pkgAbsent_tget_eq (tget_tinsert_ne _ _ _ _ hne) h
      cases hpub : vec.any (isFeatureStr "publish-lockfile") <;>
        cases hrun : vec.any (isFeatureStr "default-run") <;>
          simp only [Bool.false_eq_true, if_false, if_true]
      · exact h1
      · exact pkgStrip_transport _ _ _ h1
      · exact pkgStrip_transport _ _ _ h1
      · exact pkgStrip_transport _ _ _ (pkgStrip_transport _ _ _ h1)
    all_goals rw [rucf_id tbl (by rw [hv]; intro vec hc; cases hc)]
    all_goals exact h

/-! ## C7 — patch application -/

theorem insertPatches_cons (ct : TomlTable) (p : CratePatch)
    (rest : List CratePatch) :
    insertPatches ct (p :: rest) =
      insertPatches (tinsert ct (patchName p) (patchValue p)) rest := rfl

theorem insertPatches_id (ct : TomlTable) (ps : List CratePatch)
    (h : ∀ p ∈ ps, tget ct (patchName p) = some (patchValue p)) :
    insertPatches ct ps = ct := by
  induction ps with
  | nil => rfl
  | cons q rest ih =>
    rw [insertPatches_cons,
      tinsert_tget_eq ct (patchName q) (patchValue q) (h q (by simp))]
    exact ih (fun p hp => h p (by simp [hp]))

theorem insertPatches_tget_notmem (ct : TomlTable) (ps : List CratePatch)
    (n : String) (h : ¬ n ∈ ps.map patchName) :
    tget (insertPatches ct ps) n = tget ct n := by
  induction ps generalizing ct with
  | nil => rfl
  | cons q rest ih =>
    simp only [List.map_cons, List.mem_cons, not_or] at h
    rw [insertPatches_cons, ih _ h.2]
    exact tget_tinsert_ne _ _ _ _ h.1

theorem insertPatches_tget_mem (ct : TomlTable) (ps : List CratePatch)
    (hnd : (ps.map patchName).Nodup) :
    ∀ p ∈ ps, tget (insertPatches ct ps) (patchName p) = some (patchValue p) := by
  induction ps generalizing ct with
  | nil => intro p hp; cases hp
  | cons q rest ih =>
    simp only [List.map_cons, List.nodup_cons] at hnd
    intro p hp
    rcases List.mem_cons.mp hp with hq | hr
    · subst hq
      rw [insertPatches_cons, insertPatches_tget_notmem _ _ _ hnd.1,
        tget_tinsert_self]
    · exact ih _ hnd.2 p hr

theorem ensureCratesIo_hit (pv x : TomlValue)
    (h : vget pv "crates-io" = some x) : ensureCratesIo pv = some pv := by
  unfold ensureCratesIo
  rw [h]

theorem ensureCratesIo_miss_table (pt : TomlTable)
    (h : tget pt "crates-io" = none) :
    ensureCratesIo (.table pt) =
      some (TomlValue.table (tinsert pt "crates-io" (.table []))) := by
  unfold ensureCratesIo
  rw [show vget (TomlValue.table pt) "crates-io" = tget pt "crates-io" from rfl,
    h]

theorem ensureCratesIo_other (pv : TomlValue) (h : ∀ pt, pv ≠ .table pt) :
    ensureCratesIo pv = none := by
  unfold ensureCratesIo
  cases pv
  case table pt => exact absurd rfl (h pt)
  all_goals rfl

/-- The successful shape of `apply_patches` with a nonempty patch list: the
result is the base table (with an empty `patch` table inserted first when the
key was missing) whose `patch` value is a table `pt0` that receives, under
`crates-io`, the previous `crates-io` table `ct0` (or `[]`) extended with all
patch entries. -/
theorem applyPatches_cases (ps : List CratePatch) (tbl u : TomlTable)
    (hne : ps.isEmpty = false) (h : applyPatches ps tbl = some u) :
    ∃ t1 pt0 ct0,
      (t1 = tbl ∨ t1 = tinsert tbl "patch" (.table [])) ∧
      u = tinsert t1 "patch"
        (.table (tinsert pt0 "crates-io" (.table (insertPatches ct0 ps)))) := by
  unfold applyPatches at h
  rw [if_neg (by rw [hne]; exact Bool.noConfusion)] at h
  by_cases hp0 : (tget tbl "patch").isNone
  · rw [if_pos hp0] at h
    dsimp only at h
    rw [tget_tinsert_self] at h
    simp only [Option.bind_eq_bind, Option.some_bind] at h
    rw [ensureCratesIo_miss_table [] rfl] at h
    simp only [Option.some_bind] at h
    rw [show vget (TomlValue.table (tinsert [] "crates-io" (.table [])))
      "crates-io" = some (.table []) from rfl] at h
    simp only [Option.some_bind] at h
    rw [show asTable (TomlValue.table ([] : TomlTable)) = some [] from rfl] at h
    simp only [Option.some_bind] at h
    rw [show setCratesIo (TomlValue.table (tinsert [] "crates-io" (.table [])))
      (insertPatches [] ps) = some (.table (tinsert (tinsert [] "crates-io"
        (.table [])) "crates-io" (.table (insertPatches [] ps)))) from rfl] at h
    simp only [Option.some_bind] at h
    injection h with h
    subst h
    exact ⟨tinsert tbl "patch" (.table []), tinsert [] "crates-io" (.table []),
      [], Or.inr rfl, rfl⟩
  · rw [if_neg hp0] at h
    dsimp only at h
    cases hpv : tget tbl "patch" with
    | none => rw [hpv] at hp0; exact absurd rfl hp0
    | some pv =>
      rw [hpv] at h
      simp only [Option.bind_eq_bind, Option.some_bind] at h
      cases hcio : vget pv "crates-io" with
      | some cio0 =>
        rw [ensureCratesIo_hit pv cio0 hcio] at h
        simp only [Option.some_bind] at h
        rw [hcio] at h
        simp only [Option.some_bind] at h
        cases cio0 with
        | table ct0 =>
          rw [show asTable (TomlValue.table ct0) = some ct0 from rfl] at h
          simp only [Option.some_bind] at h
          cases pv with
          | table pt0 =>
            rw [show setCratesIo (TomlValue.table pt0) (insertPatches ct0 ps) =
              some (.table (tinsert pt0 "crates-io"
                (.table (insertPatches ct0 ps)))) from rfl] at h
            simp only [Option.some_bind] at h
            injection h with h
            subst h
            exact ⟨tbl, pt0, ct0, Or.inl rfl, rfl⟩
          | str s =>
            rw [show vget (TomlValue.str s) "crates-io" = none
              from rfl] at hcio
            exact Option.noConfusion hcio
          | int n =>
            rw [show vget (TomlValue.int n) "crates-io" = none
              from rfl] at hcio
            exact Option.noConfusion hcio
          | float b =>
            rw [show vget (TomlValue.float b) "crates-io" = none
              from rfl] at hcio
            exact Option.noConfusion hcio
          | boolean b =>
            rw [show vget (TomlValue.boolean b) "crates-io" = none
              from rfl] at hcio
            exact Option.noConfusion hcio
          | datetime s =>
            rw [show vget (TomlValue.datetime s) "crates-io" = none
              from rfl] at hcio
            exact Option.noConfusion hcio
          | array xs =>
            rw [show vget (TomlValue.array xs) "crates-io" = none
              from rfl] at hcio
            exact Option.noConfusion hcio
        | str s =>
          rw [show asTable (TomlValue.str s) = none from rfl] at h
          simp only [Option.none_bind] at h
          exact Option.noConfusion h
        | int n =>
          rw [show asTable (TomlValue.int n) = none from rfl] at h
          simp only [Option.none_bind] at h
          exact Option.noConfusion h
        | float b =>
          rw [show asTable (TomlValue.float b) = none from rfl] at h
          simp only [Option.none_bind] at h
          exact Option.noConfusion h
        | boolean b =>
          rw [show asTable (TomlValue.boolean b) = none from rfl] at h
          simp only [Option.none_bind] at h
          exact Option.noConfusion h
        | datetime s =>
          rw [show asTable (TomlValue.datetime s) = none from rfl] at h
          simp only [Option.none_bind] at h
          exact Option.noConfusion h
        | array xs =>
          rw [show asTable (TomlValue.array xs) = none from rfl] at h
          simp only [Option.none_bind] at h
          exact Option.noConfusion h
      | none =>
        cases pv with
        | table pt0 =>
          rw [ensureCratesIo_miss_table pt0 (by exact hcio)] at h
          simp only [Option.some_bind] at h
          rw [show vget (TomlValue.table (tinsert pt0 "crates-io" (.table [])))
            "crates-io" = tget (tinsert pt0 "crates-io" (.table []))
              "crates-io" from rfl, tget_tinsert_self] at h
          simp only [Option.some_bind] at h
          rw [show asTable (TomlValue.table ([] : TomlTable)) = some []
            from rfl] at h
          simp only [Option.some_bind] at h
          rw [show setCratesIo (TomlValue.table (tinsert pt0 "crates-io"
            (.table []))) (insertPatches [] ps) =
            some (.table (tinsert (tinsert pt0 "crates-io" (.table []))
              "crates-io" (.table (insertPatches [] ps)))) from rfl] at h
          simp only [Option.some_bind] at h
          injection h with h
          subst h
          exact ⟨tbl, tinsert pt0 "crates-io" (.table []), [], Or.inl rfl, rfl⟩
        | str s =>
          rw [ensureCratesIo_other (TomlValue.str s)
            (by intro pt hc; cases hc)] at h
          simp only [Option.none_bind] at h
          exact Option.noConfusion h
        | int n =>
          rw [ensureCratesIo_other (TomlValue.int n)
            (by intro pt hc; cases hc)] at h
          simp only [Option.none_bind] at h
          exact Option.noConfusion h
        | float b =>
          rw [ensureCratesIo_other (TomlValue.float b)
            (by intro pt hc; cases hc)] at h
          simp only [Option.none_bind] at h
          exact Option.noConfusion h
        | boolean b =>
          rw [ensureCratesIo_other (TomlValue.boolean b)
            (by intro pt hc; cases hc)] at h
          simp only [Option.none_bind] at h
          exact Option.noConfusion h
        | datetime s =>
          rw [ensureCratesIo_other (TomlValue.datetime s)
            (by intro pt hc; cases hc)] at h
          simp only [Option.none_bind] at h
          exact Option.noConfusion h
        | array xs =>
          rw [ensureCratesIo_other (TomlValue.array xs)
            (by intro pt hc; cases hc)] at h
          simp only [Option.none_bind] at h
          exact Option.noConfusion h

theorem applyPatches_tget (ps : List CratePatch) (tbl u : TomlTable)
    (h : applyPatches ps tbl = some u) (k : String) (hk : k ≠ "patch") :
    tget u k = tget tbl k := by
  cases hne : ps.isEmpty with
  | true =>
    unfold applyPatches at h
    rw [if_pos hne] at h
    injection h with h
    subst h
    rfl
  | false =>
    obtain ⟨t1, pt0, ct0, ht1, hu⟩ := applyPatches_cases ps tbl u hne h
    subst hu
    rw [tget_tinsert_ne _ _ _ _ hk]
    rcases ht1 with h1 | h1 <;> subst h1
    · rfl
    · rw [tget_tinsert_ne _ _ _ _ hk]

theorem applyPatches_patchOk (ps : List CratePatch) (tbl u : TomlTable)
    (hnd : (ps.map patchName).Nodup)
    (h : applyPatches ps tbl = some u) : patchOk ps u := by
  cases hne : ps.isEmpty with
  | true =>
    left
    exact List.isEmpty_iff.mp hne
  | false =>
    right
    obtain ⟨t1, pt0, ct0, ht1, hu⟩ := applyPatches_cases ps tbl u hne h
    subst hu
    exact ⟨tinsert pt0 "crates-io" (.table (insertPatches ct0 ps)),
      insertPatches ct0 ps, tget_tinsert_self _ _ _, tget_tinsert_self _ _ _,
      insertPatches_tget_mem ct0 ps hnd⟩

theorem applyPatches_of_patchOk (ps : List CratePatch) (tbl : TomlTable)
    (h : patchOk ps tbl) : applyPatches ps tbl = some tbl := by
  cases hne : ps.isEmpty with
  | true =>
    unfold applyPatches
    rw [if_pos hne]
  | false =>
    rcases h with he | ⟨pt, ct, h1, h2, h3⟩
    · rw [he] at hne; exact Bool.noConfusion hne
    · unfold applyPatches
      rw [if_neg (by rw [hne]; exact Bool.noConfusion)]
      dsimp only
      rw [if_neg (by rw [h1]; exact Bool.noConfusion)]
      rw [h1]
      simp only [Option.bind_eq_bind, Option.some_bind]
      have hvget : vget (TomlValue.table pt) "crates-io" = some (.table ct) :=
        h2
      rw [ensureCratesIo_hit _ _ hvget]
      simp only [Option.some_bind]
      rw [hvget]
      simp only [Option.some_bind]
      rw [show asTable (TomlValue.table ct) = some ct from rfl]
      simp only [Option.some_bind]
      rw [insertPatches_id ct ps h3]
      rw [show setCratesIo (TomlValue.table pt) ct =
        some (.table (tinsert pt "crates-io" (.table ct))) from rfl]
      simp only [Option.some_bind]
      rw [tinsert_tget_eq pt _ _ h2, tinsert_tget_eq tbl _ _ h1]

/-! ## C7 — the idempotence theorem -/

/-- C7: manifest rewriting is idempotent — for a manifest table whose
`package` table has unique keys (guaranteed by the TOML parser) and a patch
list with distinct crate names, a successful `tweak` (pruning missing
examples/tests, stripping `package.workspace`, scrubbing the
`publish-lockfile` and `default-run` cargo-features together with their
`package` keys, and inserting the patch entries) applied a second time to its
own output returns that output unchanged. -/
theorem c7_tweak_idempotent (dir? : Option String) (fs : String → Bool)
    (patches : List CratePatch) (tbl u : TomlTable)
    (hpkg : packageNodup tbl = true)
    (hnames : (patches.map patchName).Nodup)
    (h : tweak dir? fs patches tbl = some u) :
    tweak dir? fs patches u = some u := by
  unfold tweak at h
  cases h1 : removeMissingItems dir? fs "example" tbl with
  | none =>
    rw [h1] at h
    simp only [Option.bind_eq_bind, Option.none_bind] at h
    exact Option.noConfusion h
  | some t1 =>
    rw [h1] at h
    simp only [Option.bind_eq_bind, Option.some_bind] at h
    cases h2 : removeMissingItems dir? fs "test" t1 with
    | none =>
      rw [h2] at h
      simp only [Option.none_bind] at h
      exact Option.noConfusion h
    | some t2 =>
      rw [h2] at h
      simp only [Option.some_bind] at h
      -- the established fixpoint facts, transported to u
      have hexOk : catOk dir? fs "example" u := by
        refine catOk_tget_eq ?_ (removeMissingItems_catOk _ _ _ _ _ h1)
        rw [applyPatches_tget patches _ u h "example" (by decide),
          rucf_tget _ "example" (by decide) (by decide),
          show tget (removeParentWorkspaces t2) "example" = tget t2 "example"
            from pkgStrip_tget_ne t2 "workspace" "example" (by decide),
          removeMissingItems_tget _ _ _ _ _ h2 "example" (by decide)]
      have htestOk : catOk dir? fs "test" u := by
        refine catOk_tget_eq ?_ (removeMissingItems_catOk _ _ _ _ _ h2)
        rw [applyPatches_tget patches _ u h "test" (by decide),
          rucf_tget _ "test" (by decide) (by decide),
          show tget (removeParentWorkspaces t2) "test" = tget t2 "test"
            from pkgStrip_tget_ne t2 "workspace" "test" (by decide)]
      have hnd2 : packageNodup t2 = true := by
        rw [packageNodup_tget_eq tbl t2 (by
          rw [removeMissingItems_tget _ _ _ _ _ h2 "package" (by decide),
            removeMissingItems_tget _ _ _ _ _ h1 "package" (by decide)])]
        exact hpkg
      have hwsOk : pkgKeyAbsent "workspace" u := by
        refine pkgAbsent_tget_eq
          (applyPatches_tget patches _ u h "package" (by decide)) ?_
        exact rucf_pkgAbsent _ "workspace"
          (pkgStrip_establishes t2 "workspace" hnd2)
      have hcfOk : cfOk u := by
        refine cfOk_tget_eq
          (applyPatches_tget patches _ u h "cargo-features" (by decide)) ?_
        exact removeUnwantedCargoFeatures_cfOk _
      have hpatchOk : patchOk patches u :=
        applyPatches_patchOk patches _ u hnames h
      -- the second pass is the identity
      unfold tweak
      rw [removeMissingItems_of_catOk dir? fs "example" u hexOk]
      simp only [Option.bind_eq_bind, Option.some_bind]
      rw [removeMissingItems_of_catOk dir? fs "test" u htestOk]
      simp only [Option.some_bind]
      rw [show removeParentWorkspaces u = u from
        pkgStrip_of_absent u "workspace" hwsOk]
      rw [removeUnwantedCargoFeatures_of_cfOk u hcfOk]
      exact applyPatches_of_patchOk patches u hpatchOk

/-- C7 witness: the theorem applied to a concrete manifest with a parent
workspace and a `default-run` cargo-feature. -/
theorem c7_witness : tweak none (fun _ => true) [] c7out = some c7out :=
  c7_tweak_idempotent none (fun _ => true) [] c7tbl c7out
    (by decide) (by simp) (by rfl)

end Rustwide
